import Mathlib

/-!
Verification development for the hadar snake-game engine.

The definitions below are a shallow embedding of the Rust sources:
`src/game.rs` (simulation engine) and `src/agents/astar.rs` (planner).
The auxiliary geometry/grid types (`Vec2D`, `Direction`, `Cell`, `Grid`)
and the wire-request types live in the crate's `env`/`grid` modules whose
sources are not part of the extract; they are modelled from the spec
(sections 3, 4.1 and 6) and marked as such.

Machine-integer conventions: `i16` coordinates are modelled as `Int`
(board coordinates stay far below the overflow range), `u8` health as
`Nat` (it only moves between 0 and 100), and the two places where the
code truncates with `as u8` (`outcome`'s survivor index and the
`snakes.len() as u8` bound check) are modelled with an explicit `% 256`.
-/

namespace Hadar

/-- Modelled from the spec (§3 Direction, env.rs not in the extract):
one of Up/Right/Down/Left with a fixed, stable enumeration order used
for deterministic tie-breaking and the 0..3 numeric encoding. -/
inductive Direction where
  | Up
  | Right
  | Down
  | Left
deriving DecidableEq, Repr

/-- Modelled from the spec (§3): `all()` enumerates the four directions
in the fixed stable order Up, Right, Down, Left. -/
def Direction.all : List Direction :=
  [Direction.Up, Direction.Right, Direction.Down, Direction.Left]

/-- Modelled from the spec (§3): the 0..3 numeric encoding of directions
used by the `ValidMoves` iterator (`Direction::from(u8)`). -/
def Direction.fromNat : Nat → Direction
  | 0 => Direction.Up
  | 1 => Direction.Right
  | 2 => Direction.Down
  | _ => Direction.Left

/-- Modelled from the spec (§3 Coordinate, env.rs not in the extract):
integer pair with vector operations.  `i16` is modelled as `Int`. -/
structure Vec2D where
  x : Int
  y : Int
deriving DecidableEq, Repr

instance : Inhabited Vec2D := ⟨⟨0, 0⟩⟩

/-- Modelled from the spec (§3): applying a direction's unit delta. -/
def Vec2D.apply (p : Vec2D) (d : Direction) : Vec2D :=
  match d with
  | Direction.Up => ⟨p.x, p.y + 1⟩
  | Direction.Right => ⟨p.x + 1, p.y⟩
  | Direction.Down => ⟨p.x, p.y - 1⟩
  | Direction.Left => ⟨p.x - 1, p.y⟩

/-- Modelled from the spec (§3): coordinate subtraction, used for
delta/direction inference on a path. -/
def Vec2D.sub (p q : Vec2D) : Vec2D := ⟨p.x - q.x, p.y - q.y⟩

/-- Modelled from the spec (§3): Manhattan distance of a delta vector. -/
def Vec2D.manhattan (p : Vec2D) : Nat := p.x.natAbs + p.y.natAbs

/-- Modelled from the spec (§3): the inverse mapping from a unit delta
back to a direction (`Direction::from(Vec2D)`), used to turn the first
step of a path into a move. -/
def Direction.ofVec (v : Vec2D) : Direction :=
  if v = ⟨0, 1⟩ then Direction.Up
  else if v = ⟨1, 0⟩ then Direction.Right
  else if v = ⟨0, -1⟩ then Direction.Down
  else Direction.Left

/-- Modelled from the spec (§3 Cell): occupancy tag of a grid cell. -/
inductive CellT where
  | Free
  | Food
  | Owned
deriving DecidableEq, Repr

/-- Modelled from the spec (§3 Cell): occupancy tag plus hazard flag. -/
structure Cell where
  t : CellT
  hazard : Bool
deriving DecidableEq, Repr

/-- Modelled from the spec (§3/§4.1 Grid, grid.rs not in the extract):
fixed-size board of cells; the dense cell array is modelled as a total
function from coordinates to cells (all reads performed by the engine
are bounds-checked first). -/
structure Grid where
  width : Nat
  height : Nat
  cells : Vec2D → Cell

/-- Cell lookup (`grid[p]`). -/
def Grid.cell (g : Grid) (p : Vec2D) : Cell := g.cells p

/-- Point update of the occupancy tag (`grid[p].t = t`); the hazard flag
is untouched. -/
def Grid.setT (g : Grid) (p : Vec2D) (t : CellT) : Grid :=
  { g with cells := fun q => if q = p then ⟨t, (g.cells q).hazard⟩ else g.cells q }

/-- Modelled from the spec (§4.1): `has(point)` is true iff the point
lies within [0,width) × [0,height). -/
def Grid.has (g : Grid) (p : Vec2D) : Bool :=
  decide (0 ≤ p.x) && decide (p.x < (g.width : Int)) &&
  decide (0 ≤ p.y) && decide (p.y < (g.height : Int))

/-- Modelled from the spec (§4.1): `new(width, height)` — all cells
Free, no hazards. -/
def Grid.new (width height : Nat) : Grid :=
  ⟨width, height, fun _ => ⟨CellT.Free, false⟩⟩

/-- Modelled from the spec (§4.1): bulk food placement. -/
def Grid.add_food (g : Grid) (points : List Vec2D) : Grid :=
  points.foldl (fun acc p => acc.setT p CellT.Food) g

/-- Modelled from the spec (§4.1): bulk hazard placement. -/
def Grid.add_hazards (g : Grid) (points : List Vec2D) : Grid :=
  points.foldl
    (fun acc p =>
      { acc with cells := fun q => if q = p then ⟨(acc.cells q).t, true⟩ else acc.cells q })
    g

/-- Modelled from the spec (§4.1): `add_snake` marks every body
coordinate Owned. -/
def Grid.add_snake (g : Grid) (body : List Vec2D) : Grid :=
  body.foldl (fun acc p => acc.setT p CellT.Owned) g

/-- From `game.rs` (`struct Snake`): body stored tail-to-head (the list
head is the snake's tail, the list's last element is its head), plus a
health counter. -/
structure Snake where
  body : List Vec2D
  health : Nat
deriving DecidableEq, Repr

instance : Inhabited Snake := ⟨⟨[], 0⟩⟩

/-- From `game.rs`: `alive() = health > 0`. -/
def Snake.alive (s : Snake) : Bool := decide (0 < s.health)

/-- From `game.rs`: `head()` is the back element of the body deque. -/
def Snake.head (s : Snake) : Vec2D := s.body.getLastD default

/-- From `game.rs` (`struct Game`): turn counter, grid and the ordered
snake collection (ids are the indices; dead snakes have health 0 and an
empty body). -/
structure Game where
  turn : Nat
  grid : Grid
  snakes : List Snake

/-- Indexing into the snake collection (`self.snakes[i]`), totalised
with the default (dead, empty) snake. -/
def getS (l : List Snake) (i : Nat) : Snake := l.getD i default

/-- From `game.rs` (`Game::new`): builds the grid from food, hazards and
the snake bodies. -/
def Game.new (turn width height : Nat) (snakes : List Snake)
    (food hazards : List Vec2D) : Game :=
  let grid := ((Grid.new width height).add_food food).add_hazards hazards
  let grid := snakes.foldl (fun acc s => acc.add_snake s.body) grid
  ⟨turn, grid, snakes⟩

/-- From `game.rs` (`Game::snake_is_alive`): the `snake < len as u8`
bound check truncates the length to `u8`, modelled by `% 256`. -/
def Game.snake_is_alive (g : Game) (i : Nat) : Bool :=
  decide (i < g.snakes.length % 256) && (getS g.snakes i).alive

/-- From `game.rs` (`Game::snake_move_is_valid`): the destination must
be in bounds and either not Owned or equal to the tail (and not also the
tail's successor segment) of some living snake. -/
def Game.snake_move_is_valid (g : Game) (s : Snake) (d : Direction) : Bool :=
  let p := s.head.apply d
  g.grid.has p &&
    (!(decide ((g.grid.cell p).t = CellT.Owned)) ||
      (g.snakes.filter Snake.alive).any
        (fun r => decide (p = r.body.getD 0 default) && !(decide (p = r.body.getD 1 default))))

/-- From `game.rs` (`Game::valid_moves` and `ValidMoves::next`): for a
living snake, the directions 0..3 are scanned in encoding order and the
valid ones yielded; for a dead snake the sequence is empty. -/
def Game.valid_moves (g : Game) (i : Nat) : List Direction :=
  if g.snake_is_alive i then
    ((List.range 4).map Direction.fromNat).filter (g.snake_move_is_valid (getS g.snakes i))
  else
    []

/-! ### The step transition (`Game::step`)

The four phases of `Game::step` are modelled as separate functions
composed in source order, so that the claims about intermediate phases
(head-to-head resolution, cleanup) can be stated directly. -/

/-- From `game.rs` (`Game::step`, tail-pop phase): for each living snake
pop the tail; if the new tail differs, free the popped grid cell.  The
grid is threaded through the loop in iteration order. -/
def popTails : Grid → List Snake → Grid × List Snake
  | g, [] => (g, [])
  | g, s :: rest =>
    if s.alive then
      let tail := s.body.headD default
      let body1 := s.body.tail
      let newTail := body1.headD default
      let g1 := if tail ≠ newTail then g.setT tail CellT.Free else g
      let r := popTails g1 rest
      (r.1, { s with body := body1 } :: r.2)
    else
      let r := popTails g rest
      (r.1, s :: r.2)

/-- The per-snake effect of the tail-pop phase (the body update does not
depend on the grid). -/
def popOne (s : Snake) : Snake :=
  if s.alive then { s with body := s.body.tail } else s

/-- From `game.rs` (`Game::step`, head-advance phase, body of the loop):
move the head of one living snake, dying on out-of-bounds or Owned
destinations, otherwise eating food or taking hazard/step damage.
`hd` is the `HAZARD_DAMAGE` constant from the crate's `env` module. -/
def moveOne (g : Grid) (hd : Nat) (dir : Direction) (s : Snake) : Snake :=
  if s.alive then
    let newHead := s.head.apply dir
    if !(g.has newHead) then { s with health := 0 }
    else
      let body1 := s.body ++ [newHead]
      let c := g.cell newHead
      if c.t = CellT.Owned then { body := body1, health := 0 }
      else if c.t = CellT.Food then
        { body := body1.headD default :: body1, health := 100 }
      else
        { body := body1, health := s.health - (if c.hazard then hd else 1) }
  else s

/-- From `game.rs` (`Game::step`, head-advance phase): the loop over
`(id, snake)` pairs; the grid is only read in this phase.  `k` is the
index of the first snake of the remaining list. -/
def moveHeads (g : Grid) (hd : Nat) (moves : List Direction) : Nat → List Snake → List Snake
  | _, [] => []
  | k, s :: rest => moveOne g hd (moves.getD k Direction.Up) s :: moveHeads g hd moves (k + 1) rest

/-- Setting one snake's health to 0. -/
def kill (s : Snake) : Snake := { s with health := 0 }

/-- From `game.rs` (`Game::step`, head-to-head phase, loop body): one
comparison of snakes `i` and `j` (`i`'s aliveness is not re-checked). -/
def h2hCompare (l : List Snake) (i j : Nat) : List Snake :=
  let si := getS l i
  let sj := getS l j
  if sj.alive && decide (si.head = sj.head) then
    if si.body.length < sj.body.length then l.set i (kill si)
    else if sj.body.length < si.body.length then l.set j (kill sj)
    else (l.set i (kill si)).set j (kill sj)
  else l

/-- From `game.rs` (`Game::step`, head-to-head phase): the inner loop
`for j in i+1..len`; `cnt` counts the remaining iterations starting at
index `j`. -/
def h2hFrom (i : Nat) : Nat → Nat → List Snake → List Snake
  | 0, _, l => l
  | cnt + 1, j, l => h2hFrom i cnt (j + 1) (h2hCompare l i j)

/-- Inner loop of the head-to-head phase from `j = i + 1` to the end. -/
def h2hInner (l : List Snake) (i : Nat) : List Snake :=
  h2hFrom i (l.length - (i + 1)) (i + 1) l

/-- From `game.rs` (`Game::step`, head-to-head phase): the outer loop
`for i in 0..len-1` with its aliveness guard. -/
def h2hOuter : Nat → Nat → List Snake → List Snake
  | 0, _, l => l
  | cnt + 1, i, l =>
    h2hOuter cnt (i + 1) (if (getS l i).alive then h2hInner l i else l)

/-- The whole head-to-head resolution phase. -/
def h2hPhase (l : List Snake) : List Snake :=
  h2hOuter (l.length - 1) 0 l

/-- From `game.rs` (`Game::step`, cleanup phase): living snakes have
their head cell marked Owned; dead snakes have every remaining body cell
freed and the body cleared (a dead snake with an already empty body is
left as-is, which coincides with clearing it). -/
def cleanup : Grid → List Snake → Grid × List Snake
  | g, [] => (g, [])
  | g, s :: rest =>
    if s.alive then
      let g1 := g.setT s.head CellT.Owned
      let r := cleanup g1 rest
      (r.1, s :: r.2)
    else
      let g1 := s.body.foldl (fun acc p => acc.setT p CellT.Free) g
      let r := cleanup g1 rest
      (r.1, { s with body := [] } :: r.2)

/-- The per-snake effect of the cleanup phase. -/
def cleanOne (s : Snake) : Snake :=
  if s.alive then s else { s with body := [] }

/-- The snake list after the tail-pop and head-advance phases of
`Game::step` (the state at which head-to-head collisions are checked). -/
def Game.afterMovePhase (g : Game) (hd : Nat) (moves : List Direction) : List Snake :=
  moveHeads (popTails g.grid g.snakes).1 hd moves 0 (popTails g.grid g.snakes).2

/-- The snake list after head-to-head resolution inside `Game::step`. -/
def Game.afterH2H (g : Game) (hd : Nat) (moves : List Direction) : List Snake :=
  h2hPhase (g.afterMovePhase hd moves)

/-- From `game.rs` (`Game::step`): the four phases in source order plus
the turn increment. -/
def Game.step (g : Game) (hd : Nat) (moves : List Direction) : Game :=
  let p := popTails g.grid g.snakes
  let s2 := moveHeads p.1 hd moves 0 p.2
  let s3 := h2hPhase s2
  let c := cleanup p.1 s3
  ⟨g.turn + 1, c.1, c.2⟩

/-- From `game.rs` (`enum Outcome`). -/
inductive Outcome where
  | None
  | Match
  | Winner (id : Nat)
deriving DecidableEq, Repr

/-- From `game.rs` (`Game::outcome`): the counting loop, tracking the
number of living snakes and the index of the last living one. -/
def outcomeAux : List Snake → Nat → Nat × Nat → Nat × Nat
  | [], _, acc => acc
  | s :: rest, i, acc =>
    outcomeAux rest (i + 1) (if s.alive then (acc.1 + 1, i) else acc)

/-- From `game.rs` (`Game::outcome`): Match on zero living snakes,
Winner on exactly one (the survivor index is truncated `as u8`,
modelled by `% 256`), None otherwise. -/
def Game.outcome (g : Game) : Outcome :=
  match (outcomeAux g.snakes 0 (0, 0)).1 with
  | 0 => Outcome.Match
  | 1 => Outcome.Winner ((outcomeAux g.snakes 0 (0, 0)).2 % 256)
  | _ => Outcome.None

/-- Number of grid cells tagged Owned (row-major scan of the board). -/
def ownedCount (g : Grid) : Nat :=
  (List.range g.height).foldl
    (fun acc y =>
      (List.range g.width).foldl
        (fun a x => a + if (g.cell ⟨(x : Int), (y : Int)⟩).t = CellT.Owned then 1 else 0)
        acc)
    0

/-- Sum of the living snakes' body lengths. -/
def livingLenSum (l : List Snake) : Nat :=
  (l.filter Snake.alive).foldl (fun a s => a + s.body.length) 0

/-- The Grid/body ownership invariant of the spec (§3): every living
snake has a body of at least the minimum length and all of its segments
are tagged Owned. -/
def gridInvariant (g : Game) : Prop :=
  ∀ s ∈ g.snakes, s.alive →
    2 ≤ s.body.length ∧ ∀ p ∈ s.body, (g.grid.cell p).t = CellT.Owned

instance (g : Game) : Decidable (gridInvariant g) := by
  unfold gridInvariant
  infer_instance

/-! ### Snapshot reconstruction (`Game::from_request`) -/

/-- Modelled from the spec (§6 snapshot input, env.rs not in the
extract): one wire-format snake — an id, the body in head-to-tail wire
order, and its health.  Ids are modelled as naturals (only equality is
used). -/
structure Battlesnake where
  id : Nat
  body : List Vec2D
  health : Nat
deriving Repr

/-- Modelled from the spec (§6): the board part of a request. -/
structure BoardData where
  width : Nat
  height : Nat
  food : List Vec2D
  hazards : List Vec2D
  snakes : List Battlesnake
deriving Repr

/-- Modelled from the spec (§6): a move request — turn, board and the
self snake. -/
structure GameRequest where
  turn : Nat
  board : BoardData
  you : Battlesnake
deriving Repr

/-- From `game.rs` (`Snake::from`): the wire body is reversed into
tail-to-head order. -/
def Snake.from (b : Battlesnake) : Snake := ⟨b.body.reverse, b.health⟩

/-- From `game.rs` (`Game::from_request`): the minimum Manhattan
distance from the self head to any segment of a rival body
(`unwrap_or_default` gives 0 for an empty body). -/
def rivalDist (you : Snake) (s : Snake) : Nat :=
  match s.body.map (fun p => (p.sub you.head).manhattan) with
  | [] => 0
  | d :: ds => ds.foldl min d

/-- Extraction of a minimal-key element from the keyed rival list.  It
models one `BinaryHeap::pop` of `game.rs` (the heap orders by
`Reverse(dist)`, so a pop yields a minimal distance); among equal keys
the heap's order is unspecified and the first-listed element is taken. -/
def extractMin : List (Nat × Snake) → Option ((Nat × Snake) × List (Nat × Snake))
  | [] => none
  | x :: xs =>
    match extractMin xs with
    | none => some (x, [])
    | some (m, rest) =>
      if x.1 ≤ m.1 then some (x, xs) else some (m, x :: rest)

/-- From `game.rs` (`Game::from_request`): the `for _ in 1..3` loop that
pops nearest rivals off the heap — `n` pops in total. -/
def popNearest : Nat → List (Nat × Snake) → List Snake
  | 0, _ => []
  | n + 1, l =>
    match extractMin l with
    | none => []
    | some (m, rest) => m.2 :: popNearest n rest

/-- From `game.rs` (`Game::from_request`): self first; when the snapshot
holds more than 4 snakes, only the rivals popped by the `for _ in 1..3`
loop (two iterations) are kept, otherwise all rivals are kept. -/
def Game.from_request (r : GameRequest) : Game :=
  let you := Snake.from r.you
  let snakes :=
    if 4 < r.board.snakes.length then
      let rivals := (r.board.snakes.filter (fun s => s.id ≠ r.you.id)).map Snake.from
      let keyed := rivals.map (fun s => (rivalDist you s, s))
      you :: popNearest 2 keyed
    else
      you :: (r.board.snakes.filter (fun s => s.id ≠ r.you.id)).map Snake.from
  Game.new r.turn r.board.width r.board.height snakes r.board.food r.board.hazards

/-! ### The planner (`agents/astar.rs`) -/

/-- The self snake (`game.snakes[0]`). -/
def selfSnake (g : Game) : Snake := getS g.snakes 0

/-- From `astar.rs` (`StarAgent::step`): the row-major food scan
(`for y { for x { if Food push } }`). -/
def foodCells (g : Game) : List Vec2D :=
  (List.range g.grid.height).flatMap
    (fun y =>
      (List.range g.grid.width).filterMap
        (fun x =>
          if (g.grid.cell ⟨(x : Int), (y : Int)⟩).t = CellT.Food
          then some ⟨(x : Int), (y : Int)⟩ else none))

/-- Squared Euclidean distance used by the target selection (computed in
`f64` in the source from exact integer squares, so it compares exactly
like the integer value). -/
def sqDist (a b : Vec2D) : Int := (a.x - b.x) ^ 2 + (a.y - b.y) ^ 2

/-- From `astar.rs` (`StarAgent::step`): the `min_by` fold over the food
list — the first-encountered cell of minimal squared distance wins
(`Iterator::min_by` keeps the first of equally minimal elements). -/
def minFoodAux (hd : Vec2D) : Vec2D → List Vec2D → Vec2D
  | best, [] => best
  | best, p :: rest =>
    minFoodAux hd (if sqDist p hd < sqDist best hd then p else best) rest

/-- From `astar.rs` (`StarAgent::step`): the default target — the
nearest food cell by squared Euclidean distance from the self head,
`none` when the board has no food. -/
def selectTarget (g : Game) : Option Vec2D :=
  match foodCells g with
  | [] => none
  | p :: rest => some (minFoodAux (selfSnake g).head p rest)

/-- Blacklist handling from `astar.rs` (`nots: &mut Option<Vec<_>>`). -/
def notsList : Option (List Direction) → List Direction
  | none => []
  | some l => l

/-- From `astar.rs` (`move_check`): pushing the rejected direction onto
the blacklist (`Some` pushes, `None` becomes a singleton). -/
def pushNot (d : Direction) : Option (List Direction) → Option (List Direction)
  | none => some [d]
  | some l => some (l ++ [d])

/-- From `astar.rs` (`move_check`, loop over `game.snakes[1..]`): the
chosen destination is one cardinal step away from the head of some rival
at least as long as self (dead rivals have empty bodies, so they only
qualify when self is empty too, exactly as in the source). -/
def dangerous (g : Game) (m : Direction) : Bool :=
  let my := selfSnake g
  let futurePos := my.head.apply m
  (g.snakes.drop 1).any
    (fun s =>
      decide (my.body.length ≤ s.body.length) &&
        Direction.all.any (fun d => decide (s.head.apply d = futurePos)))

/-- Count of directions not yet on a blacklist; the termination measure
of the `random`/`move_check` recursion. -/
def freeCnt (l : List Direction) : Nat :=
  (if Direction.Up ∉ l then 1 else 0) + (if Direction.Right ∉ l then 1 else 0) +
    (if Direction.Down ∉ l then 1 else 0) + (if Direction.Left ∉ l then 1 else 0)

theorem mem_direction_all (d : Direction) : d ∈ Direction.all := by
  cases d <;> simp [Direction.all]

theorem freeTerm_le (l : List Direction) (c d : Direction) :
    (if d ∉ l ++ [c] then 1 else 0) ≤ (if d ∉ l then 1 else 0) := by
  by_cases h : d ∈ l
  · simp [h]
  · simp only [h, not_false_iff, if_true]
    split <;> omega

theorem freeCnt_push_lt {l : List Direction} {c : Direction} (hc : c ∉ l) :
    freeCnt (l ++ [c]) < freeCnt l := by
  have h1 := freeTerm_le l c Direction.Up
  have h2 := freeTerm_le l c Direction.Right
  have h3 := freeTerm_le l c Direction.Down
  have h4 := freeTerm_le l c Direction.Left
  unfold freeCnt
  cases c
  case Up =>
    have e1 : (if Direction.Up ∉ l ++ [Direction.Up] then 1 else 0) = 0 := by simp
    have e2 : (if Direction.Up ∉ l then 1 else 0) = 1 := by simp [hc]
    omega
  case Right =>
    have e1 : (if Direction.Right ∉ l ++ [Direction.Right] then 1 else 0) = 0 := by simp
    have e2 : (if Direction.Right ∉ l then 1 else 0) = 1 := by simp [hc]
    omega
  case Down =>
    have e1 : (if Direction.Down ∉ l ++ [Direction.Down] then 1 else 0) = 0 := by simp
    have e2 : (if Direction.Down ∉ l then 1 else 0) = 1 := by simp [hc]
    omega
  case Left =>
    have e1 : (if Direction.Left ∉ l ++ [Direction.Left] then 1 else 0) = 0 := by simp
    have e2 : (if Direction.Left ∉ l then 1 else 0) = 1 := by simp [hc]
    omega

mutual

/-- From `astar.rs` (`fn random`): collect the legal moves, drop the
blacklisted ones; on exhaustion fall back to the first unfiltered legal
move, or Up; otherwise draw a candidate and re-check it.  The RNG draw
(`choose`) is modelled by the oracle `pick`, which supplies the index of
the drawn element. -/
def srandom (g : Game) (nots : Option (List Direction))
    (pick : List Direction → Nat) : Direction :=
  let moves := (g.valid_moves 0).filter (fun m => decide (m ∉ notsList nots))
  if h : moves = [] then
    (g.valid_moves 0).headD Direction.Up
  else
    smove_check g (moves.get ⟨pick moves % moves.length, Nat.mod_lt _ (List.length_pos.mpr h)⟩)
      nots pick
termination_by 2 * freeCnt (notsList nots)
decreasing_by
  have hmem : moves.get ⟨pick moves % moves.length, Nat.mod_lt _ (List.length_pos.mpr h)⟩ ∈ moves :=
    List.get_mem _ _ _
  have hnot : moves.get ⟨pick moves % moves.length, Nat.mod_lt _ (List.length_pos.mpr h)⟩ ∉ notsList nots := by
    have := List.of_mem_filter hmem
    simpa using this
  have hlist : notsList (pushNot (moves.get ⟨pick moves % moves.length, Nat.mod_lt _ (List.length_pos.mpr h)⟩) nots)
      = notsList nots ++ [moves.get ⟨pick moves % moves.length, Nat.mod_lt _ (List.length_pos.mpr h)⟩] := by
    cases nots <;> rfl
  rw [hlist]
  have := freeCnt_push_lt hnot
  omega

/-- From `astar.rs` (`fn move_check`): if the candidate walks next to
the head of a rival at least as long as self, blacklist it and redraw;
otherwise commit it. -/
def smove_check (g : Game) (m : Direction) (nots : Option (List Direction))
    (pick : List Direction → Nat) : Direction :=
  if dangerous g m then srandom g (pushNot m nots) pick else m
termination_by 2 * freeCnt (notsList (pushNot m nots)) + 1
decreasing_by
  omega

end

mutual

/-- Fuel-indexed variant of `random`, used to state the recursion-depth
bound of the fallback loop (`none` means the fuel ran out). -/
def srandomF (g : Game) (nots : Option (List Direction))
    (pick : List Direction → Nat) : Nat → Option Direction
  | 0 => none
  | fuel + 1 =>
    let moves := (g.valid_moves 0).filter (fun m => decide (m ∉ notsList nots))
    if h : moves = [] then
      some ((g.valid_moves 0).headD Direction.Up)
    else
      smove_checkF g (moves.get ⟨pick moves % moves.length, Nat.mod_lt _ (List.length_pos.mpr h)⟩)
        nots pick fuel

/-- Fuel-indexed variant of `move_check`. -/
def smove_checkF (g : Game) (m : Direction) (nots : Option (List Direction))
    (pick : List Direction → Nat) : Nat → Option Direction
  | 0 => none
  | fuel + 1 =>
    if dangerous g m then srandomF g (pushNot m nots) pick fuel else some m

end

/-- From `astar.rs` (`StarAgent::step`): pick the nearest-food target,
run A* (`grid.a_star`, whose source is in the crate's missing grid
module and which is abstracted here as the oracle `astar`), commit the
first step of a long-enough path through the safety check, and otherwise
fall back to the filtered random choice. -/
def starStep (g : Game) (astar : Vec2D → Vec2D → Option (List Vec2D))
    (pick : List Direction → Nat) : Direction :=
  match selectTarget g with
  | some target =>
    match astar (selfSnake g).head target with
    | some path =>
      if 2 ≤ path.length then
        smove_check g (Direction.ofVec ((path.getD 1 default).sub (path.getD 0 default))) none pick
      else srandom g none pick
    | none => srandom g none pick
  | none => srandom g none pick

/-! ### List indexing helpers -/

theorem set_oob {l : List Snake} {i : Nat} (h : l.length ≤ i) (a : Snake) :
    l.set i a = l := by
  induction l generalizing i with
  | nil => rfl
  | cons b t ih =>
    cases i with
    | zero => simp at h
    | succ j =>
      simp only [List.set]
      rw [ih (by simpa using h)]

theorem getS_set_eq {l : List Snake} {i : Nat} (h : i < l.length) (a : Snake) :
    getS (l.set i a) i = a := by
  unfold getS
  induction l generalizing i with
  | nil => simp at h
  | cons b t ih =>
    cases i with
    | zero => rfl
    | succ j => exact ih (by simpa using h)

theorem getS_set_ne {l : List Snake} {i j : Nat} (h : i ≠ j) (a : Snake) :
    getS (l.set i a) j = getS l j := by
  unfold getS
  induction l generalizing i j with
  | nil => rfl
  | cons b t ih =>
    cases i with
    | zero =>
      cases j with
      | zero => exact absurd rfl h
      | succ j2 => rfl
    | succ i2 =>
      cases j with
      | zero => rfl
      | succ j2 => exact ih (by omega)

theorem getS_oob {l : List Snake} {i : Nat} (h : l.length ≤ i) :
    getS l i = default := by
  unfold getS
  induction l generalizing i with
  | nil => cases i <;> rfl
  | cons b t ih =>
    cases i with
    | zero => simp at h
    | succ j => exact ih (by simpa using h)

/-! ### Basic facts about the head-to-head phase -/

theorem kill_body (s : Snake) : (kill s).body = s.body := rfl

theorem kill_alive (s : Snake) : (kill s).alive = false := by
  simp [kill, Snake.alive]

theorem kill_idem (s : Snake) : kill (kill s) = kill s := rfl

theorem kill_default : kill (default : Snake) = default := rfl

theorem h2hCompare_length (l : List Snake) (i j : Nat) :
    (h2hCompare l i j).length = l.length := by
  unfold h2hCompare
  dsimp only
  split
  · split
    · simp
    · split <;> simp
  · rfl

theorem getS_set_kill (l : List Snake) (m k : Nat) :
    getS (l.set m (kill (getS l m))) k = getS l k ∨
      getS (l.set m (kill (getS l m))) k = kill (getS l k) := by
  by_cases hmk : m = k
  · subst hmk
    by_cases hlt : m < l.length
    · right; exact getS_set_eq hlt _
    · left; rw [set_oob (by omega)]
  · left; exact getS_set_ne hmk _

theorem h2hCompare_cases (i j : Nat) (l : List Snake) (k : Nat) :
    getS (h2hCompare l i j) k = getS l k ∨
      getS (h2hCompare l i j) k = kill (getS l k) := by
  unfold h2hCompare
  dsimp only
  split
  · split
    · exact getS_set_kill l i k
    · split
      · exact getS_set_kill l j k
      · by_cases hjk : j = k
        · subst hjk
          by_cases hlt : j < (l.set i (kill (getS l i))).length
          · right
            rw [getS_set_eq hlt]
          · rw [set_oob (by omega)]
            exact getS_set_kill l i j
        · rw [getS_set_ne hjk]
          exact getS_set_kill l i k
  · left; rfl

theorem h2hFrom_length (i cnt j : Nat) (l : List Snake) :
    (h2hFrom i cnt j l).length = l.length := by
  induction cnt generalizing j l with
  | zero => rfl
  | succ c ih => rw [h2hFrom, ih, h2hCompare_length]

theorem h2hFrom_cases (i cnt j : Nat) (l : List Snake) (k : Nat) :
    getS (h2hFrom i cnt j l) k = getS l k ∨
      getS (h2hFrom i cnt j l) k = kill (getS l k) := by
  induction cnt generalizing j l with
  | zero => left; rfl
  | succ c ih =>
    rw [h2hFrom]
    rcases ih (j + 1) (h2hCompare l i j) with h | h <;>
      rcases h2hCompare_cases i j l k with h2 | h2 <;> rw [h, h2]
    · left; rfl
    · right; rfl
    · right; rfl
    · right; rw [kill_idem]

theorem h2hInner_length (l : List Snake) (i : Nat) :
    (h2hInner l i).length = l.length := h2hFrom_length _ _ _ _

theorem h2hInner_cases (l : List Snake) (i k : Nat) :
    getS (h2hInner l i) k = getS l k ∨ getS (h2hInner l i) k = kill (getS l k) :=
  h2hFrom_cases _ _ _ _ _

theorem h2hOuter_length (cnt i : Nat) (l : List Snake) :
    (h2hOuter cnt i l).length = l.length := by
  induction cnt generalizing i l with
  | zero => rfl
  | succ c ih =>
    rw [h2hOuter, ih]
    split
    · exact h2hInner_length _ _
    · rfl

theorem h2hOuter_cases (cnt i : Nat) (l : List Snake) (k : Nat) :
    getS (h2hOuter cnt i l) k = getS l k ∨
      getS (h2hOuter cnt i l) k = kill (getS l k) := by
  induction cnt generalizing i l with
  | zero => left; rfl
  | succ c ih =>
    rw [h2hOuter]
    split
    · rcases ih (i + 1) (h2hInner l i) with h | h <;>
        rcases h2hInner_cases l i k with h2 | h2 <;> rw [h, h2]
      · left; rfl
      · right; rfl
      · right; rfl
      · right; rw [kill_idem]
    · exact ih (i + 1) l

theorem h2hPhase_length (l : List Snake) : (h2hPhase l).length = l.length :=
  h2hOuter_length _ _ _

theorem h2hPhase_cases (l : List Snake) (k : Nat) :
    getS (h2hPhase l) k = getS l k ∨ getS (h2hPhase l) k = kill (getS l k) :=
  h2hOuter_cases _ _ _ _

theorem h2hPhase_body (l : List Snake) (k : Nat) :
    (getS (h2hPhase l) k).body = (getS l k).body := by
  rcases h2hPhase_cases l k with h | h <;> rw [h]
  rfl

theorem h2hPhase_mono {l : List Snake} {k : Nat}
    (h : (getS (h2hPhase l) k).alive = true) : (getS l k).alive = true := by
  rcases h2hPhase_cases l k with h2 | h2 <;> rw [h2] at h
  · exact h
  · rw [kill_alive] at h; cases h

theorem h2hInner_body (l : List Snake) (i k : Nat) :
    (getS (h2hInner l i) k).body = (getS l k).body := by
  rcases h2hInner_cases l i k with h | h <;> rw [h]
  rfl

theorem h2hInner_mono {l : List Snake} {i k : Nat}
    (h : (getS (h2hInner l i) k).alive = true) : (getS l k).alive = true := by
  rcases h2hInner_cases l i k with h2 | h2 <;> rw [h2] at h
  · exact h
  · rw [kill_alive] at h; cases h

theorem h2hCompare_body (l : List Snake) (i j k : Nat) :
    (getS (h2hCompare l i j) k).body = (getS l k).body := by
  rcases h2hCompare_cases i j l k with h | h <;> rw [h]
  rfl

theorem h2hFrom_body (i cnt j : Nat) (l : List Snake) (k : Nat) :
    (getS (h2hFrom i cnt j l) k).body = (getS l k).body := by
  rcases h2hFrom_cases i cnt j l k with h | h <;> rw [h]
  rfl

theorem h2hFrom_mono {i cnt j : Nat} {l : List Snake} {k : Nat}
    (h : (getS (h2hFrom i cnt j l) k).alive = true) : (getS l k).alive = true := by
  rcases h2hFrom_cases i cnt j l k with h2 | h2 <;> rw [h2] at h
  · exact h
  · rw [kill_alive] at h; cases h

theorem body_eq_head_eq {s t : Snake} (h : s.body = t.body) : s.head = t.head := by
  unfold Snake.head
  rw [h]

theorem health_zero_persist_from {i cnt j : Nat} {l : List Snake} {k : Nat}
    (h : (getS l k).health = 0) : (getS (h2hFrom i cnt j l) k).health = 0 := by
  rcases h2hFrom_cases i cnt j l k with h2 | h2 <;> rw [h2]
  · exact h
  · rfl

theorem alive_lt {l : List Snake} {i : Nat} (h : (getS l i).alive = true) :
    i < l.length := by
  by_contra hge
  rw [getS_oob (by omega)] at h
  simp [Snake.alive, default] at h

theorem h2hCompare_kills_j {l : List Snake} {i j : Nat}
    (halive : (getS l j).alive = true)
    (hhead : (getS l i).head = (getS l j).head)
    (hlen : (getS l j).body.length ≤ (getS l i).body.length) :
    (getS (h2hCompare l i j) j).health = 0 := by
  have hj : j < l.length := alive_lt halive
  unfold h2hCompare
  dsimp only
  rw [if_pos (by simp [halive, hhead])]
  rw [if_neg (by omega)]
  by_cases hlt : (getS l j).body.length < (getS l i).body.length
  · rw [if_pos hlt, getS_set_eq hj]
    rfl
  · rw [if_neg hlt, getS_set_eq (by simpa using hj)]
    rfl

theorem h2hCompare_kills_i {l : List Snake} {i j : Nat} (hij : i ≠ j)
    (hi : i < l.length)
    (halive : (getS l j).alive = true)
    (hhead : (getS l i).head = (getS l j).head)
    (hlen : (getS l i).body.length ≤ (getS l j).body.length) :
    (getS (h2hCompare l i j) i).health = 0 := by
  unfold h2hCompare
  dsimp only
  rw [if_pos (by simp [halive, hhead])]
  by_cases hlt : (getS l i).body.length < (getS l j).body.length
  · rw [if_pos hlt, getS_set_eq hi]
    rfl
  · rw [if_neg hlt, if_neg (by omega), getS_set_ne (Ne.symm hij), getS_set_eq hi]
    rfl

theorem h2hCompare_eq_of_not_guard {l : List Snake} {i j : Nat}
    (h : ¬((getS l j).alive = true ∧ (getS l i).head = (getS l j).head)) :
    h2hCompare l i j = l := by
  unfold h2hCompare
  dsimp only
  rw [if_neg]
  intro hguard
  rw [Bool.and_eq_true, decide_eq_true_iff] at hguard
  exact h hguard

theorem h2hCompare_preserves_other {l : List Snake} {i j k : Nat}
    (hki : k ≠ i) (hkj : k ≠ j) :
    getS (h2hCompare l i j) k = getS l k := by
  unfold h2hCompare
  dsimp only
  split
  · split
    · exact getS_set_ne (Ne.symm hki) _
    · split
      · exact getS_set_ne (Ne.symm hkj) _
      · rw [getS_set_ne (Ne.symm hkj), getS_set_ne (Ne.symm hki)]
  · rfl

theorem h2hCompare_preserves_i {l : List Snake} {i j : Nat} (hij : i ≠ j)
    (hcond : (getS l j).alive = true → (getS l i).head = (getS l j).head →
      (getS l j).body.length < (getS l i).body.length) :
    getS (h2hCompare l i j) i = getS l i := by
  by_cases hguard : (getS l j).alive = true ∧ (getS l i).head = (getS l j).head
  · have hlen := hcond hguard.1 hguard.2
    unfold h2hCompare
    dsimp only
    rw [if_pos (by simp [hguard.1, hguard.2]), if_neg (by omega), if_pos hlen]
    exact getS_set_ne (Ne.symm hij) _
  · rw [h2hCompare_eq_of_not_guard hguard]

theorem h2hFrom_kills {i cnt : Nat} : ∀ {j k : Nat} {l : List Snake},
    k ≠ i → j ≤ k → k < j + cnt →
    (getS l k).alive = true →
    (getS l k).head = (getS l i).head →
    (getS l k).body.length ≤ (getS l i).body.length →
    (getS (h2hFrom i cnt j l) k).health = 0 := by
  induction cnt with
  | zero => intro j k l _ _ hk; omega
  | succ c ih =>
    intro j k l hki hj hk halive hhead hlen
    rw [h2hFrom]
    by_cases hkj : k = j
    · subst hkj
      exact health_zero_persist_from (h2hCompare_kills_j halive hhead.symm hlen)
    · have hpres := h2hCompare_preserves_other (l := l) (i := i) (j := j) hki hkj
      have hbodyi := h2hCompare_body l i j i
      exact ih hki (by omega) (by omega)
        (by rw [hpres]; exact halive)
        (by rw [hpres, body_eq_head_eq hbodyi]; exact hhead)
        (by rw [hpres, hbodyi]; exact hlen)

theorem h2hFrom_kills_self {i cnt : Nat} : ∀ {j k : Nat} {l : List Snake},
    i < l.length → i ≠ k → j ≤ k → k < j + cnt →
    (getS l k).alive = true →
    (getS l i).head = (getS l k).head →
    (getS l i).body.length ≤ (getS l k).body.length →
    (getS (h2hFrom i cnt j l) i).health = 0 := by
  induction cnt with
  | zero => intro j k l _ _ _ hk; omega
  | succ c ih =>
    intro j k l hi hik hj hk halive hhead hlen
    rw [h2hFrom]
    by_cases hkj : k = j
    · subst hkj
      exact health_zero_persist_from (h2hCompare_kills_i hik hi halive hhead hlen)
    · rcases h2hCompare_cases i j l i with hcase | hcase
      · have hpres := h2hCompare_preserves_other (l := l) (i := i) (j := j)
          (Ne.symm hik) hkj
        refine ih ?_ hik (by omega) (by omega) ?_ ?_ ?_
        · rw [h2hCompare_length]; exact hi
        · rw [hpres]; exact halive
        · rw [hpres, hcase]; exact hhead
        · rw [hpres, hcase]; exact hlen
      · apply health_zero_persist_from
        rw [hcase]
        rfl

theorem h2hFrom_preserves_out {i cnt : Nat} : ∀ {j k : Nat} {l : List Snake},
    k ≠ i → (k < j ∨ j + cnt ≤ k) →
    getS (h2hFrom i cnt j l) k = getS l k := by
  induction cnt with
  | zero => intro j k l _ _; rfl
  | succ c ih =>
    intro j k l hki hrange
    rw [h2hFrom]
    have hkj : k ≠ j := by omega
    rw [ih hki (by omega)]
    exact h2hCompare_preserves_other hki hkj

theorem h2hFrom_preserves_self {i cnt : Nat} : ∀ {j : Nat} {l : List Snake},
    i < j →
    (∀ k, j ≤ k → k < j + cnt → (getS l k).alive = true →
      (getS l k).head = (getS l i).head →
      (getS l k).body.length < (getS l i).body.length) →
    getS (h2hFrom i cnt j l) i = getS l i := by
  induction cnt with
  | zero => intro j l _ _; rfl
  | succ c ih =>
    intro j l hij hcond
    rw [h2hFrom]
    have hstep : getS (h2hCompare l i j) i = getS l i := by
      apply h2hCompare_preserves_i (by omega)
      intro halive hhead
      exact hcond j (by omega) (by omega) halive hhead.symm
    rw [← hstep]
    apply ih (by omega)
    intro k hk1 hk2 halive hhead
    have hpres := h2hCompare_preserves_other (l := l) (i := i) (j := j)
      (show k ≠ i by omega) (show k ≠ j by omega)
    rw [hpres] at halive hhead ⊢
    rw [hstep] at hhead ⊢
    exact hcond k (by omega) (by omega) halive hhead

theorem h2hFrom_preserves_k {i cnt : Nat} : ∀ {j k : Nat} {l : List Snake},
    k ≠ i →
    ((getS l k).alive = true → (getS l k).head = (getS l i).head →
      (getS l i).body.length < (getS l k).body.length) →
    getS (h2hFrom i cnt j l) k = getS l k := by
  induction cnt with
  | zero => intro j k l _ _; rfl
  | succ c ih =>
    intro j k l hki hcond
    rw [h2hFrom]
    have hstep : getS (h2hCompare l i j) k = getS l k := by
      by_cases hkj : k = j
      · subst hkj
        by_cases hguard : (getS l k).alive = true ∧ (getS l i).head = (getS l k).head
        · have hlen := hcond hguard.1 hguard.2.symm
          unfold h2hCompare
          dsimp only
          rw [if_pos (by simp [hguard.1, hguard.2]), if_pos hlen]
          exact getS_set_ne (Ne.symm hki) _
        · rw [h2hCompare_eq_of_not_guard (by
            intro hg
            exact hguard ⟨hg.1, hg.2⟩)]
      · exact h2hCompare_preserves_other hki hkj
    rw [← hstep]
    apply ih hki
    intro halive hhead
    rw [hstep] at halive hhead ⊢
    rw [body_eq_head_eq (h2hCompare_body l i j i)] at hhead
    rw [h2hCompare_body l i j i]
    exact hcond halive hhead

theorem h2hInner_kills {l : List Snake} {i k : Nat}
    (hik : i < k) (hk : k < l.length)
    (halive : (getS l k).alive = true)
    (hhead : (getS l k).head = (getS l i).head)
    (hlen : (getS l k).body.length ≤ (getS l i).body.length) :
    (getS (h2hInner l i) k).health = 0 :=
  h2hFrom_kills (by omega) (by omega) (by omega) halive hhead hlen

theorem h2hInner_kills_self {l : List Snake} {i k : Nat}
    (hi : i < l.length) (hik : i < k) (hk : k < l.length)
    (halive : (getS l k).alive = true)
    (hhead : (getS l i).head = (getS l k).head)
    (hlen : (getS l i).body.length ≤ (getS l k).body.length) :
    (getS (h2hInner l i) i).health = 0 :=
  h2hFrom_kills_self hi (by omega) (by omega) (by omega) halive hhead hlen

theorem h2hInner_preserves_self {l : List Snake} {i : Nat}
    (hcond : ∀ k, i < k → k < l.length → (getS l k).alive = true →
      (getS l k).head = (getS l i).head →
      (getS l k).body.length < (getS l i).body.length) :
    getS (h2hInner l i) i = getS l i := by
  apply h2hFrom_preserves_self (by omega)
  intro k hk1 hk2 halive hhead
  exact hcond k (by omega) (by omega) halive hhead

theorem h2hInner_preserves_k {l : List Snake} {i k : Nat} (hki : k ≠ i)
    (hcond : (getS l k).alive = true → (getS l k).head = (getS l i).head →
      (getS l i).body.length < (getS l k).body.length) :
    getS (h2hInner l i) k = getS l k :=
  h2hFrom_preserves_k hki hcond

/-- Preservation through the whole head-to-head phase: a snake that is
strictly longer than every living snake sharing its head coordinate is
left untouched by the resolution loops. -/
theorem h2hOuter_preserves {cnt : Nat} : ∀ {i : Nat} {l : List Snake} {y : Nat},
    (∀ k, k ≠ y → (getS l k).alive = true →
      (getS l k).head = (getS l y).head →
      (getS l k).body.length < (getS l y).body.length) →
    getS (h2hOuter cnt i l) y = getS l y := by
  induction cnt with
  | zero => intro i l y _; rfl
  | succ c ih =>
    intro i l y hcond
    rw [h2hOuter]
    by_cases hguard : (getS l i).alive = true
    · rw [if_pos hguard]
      have hstep : getS (h2hInner l i) y = getS l y := by
        by_cases hiy : i = y
        · subst hiy
          apply h2hInner_preserves_self
          intro k hk1 _ halive hhead
          exact hcond k (by omega) halive hhead
        · apply h2hInner_preserves_k (by omega)
          intro halive hhead
          exact hcond i (by omega) hguard hhead.symm
      rw [← hstep]
      apply ih
      intro k hky halive hhead
      rw [hstep] at hhead ⊢
      have halive2 := h2hInner_mono halive
      have hb := h2hInner_body l i k
      rw [body_eq_head_eq hb] at hhead
      rw [hb]
      exact hcond k hky halive2 hhead
    · rw [if_neg hguard]
      exact ih hcond

theorem h2hPhase_preserves {l : List Snake} {y : Nat}
    (hcond : ∀ k, k ≠ y → (getS l k).alive = true →
      (getS l k).head = (getS l y).head →
      (getS l k).body.length < (getS l y).body.length) :
    getS (h2hPhase l) y = getS l y :=
  h2hOuter_preserves hcond

/-- The inductive invariant of the head-to-head outer loop: after the
outer indices below `i` have been processed, any snake that is still
alive but originally had a living partner at the same head coordinate
of at least its length must have index `≥ i` and must still have such a
partner alive with index `≥ i`. -/
def H2HInv (A l : List Snake) (i : Nat) : Prop :=
  l.length = A.length ∧
  (∀ k, (getS l k).body = (getS A k).body) ∧
  (∀ k, (getS l k).alive = true → (getS A k).alive = true) ∧
  (∀ x, x < A.length → (getS A x).alive = true → (getS l x).alive = true →
    (∃ y, y < A.length ∧ y ≠ x ∧ (getS A y).alive = true ∧
      (getS A y).head = (getS A x).head ∧
      (getS A x).body.length ≤ (getS A y).body.length) →
    i ≤ x ∧ ∃ y, y < A.length ∧ y ≠ x ∧ (getS A y).alive = true ∧
      (getS l y).alive = true ∧
      (getS A y).head = (getS A x).head ∧
      (getS A x).body.length ≤ (getS A y).body.length ∧ i ≤ y)

theorem H2HInv_init (A : List Snake) : H2HInv A A 0 := by
  refine ⟨rfl, fun k => rfl, fun k h => h, ?_⟩
  intro x hx _ _ hpart
  refine ⟨Nat.zero_le _, ?_⟩
  obtain ⟨y, hy, hyx, hal, hhd, hln⟩ := hpart
  exact ⟨y, hy, hyx, hal, hal, hhd, hln, Nat.zero_le _⟩

theorem alive_false_of_health_zero {s : Snake} (h : s.health = 0) :
    s.alive = false := by
  simp [Snake.alive, h]

theorem H2HInv_step {A l : List Snake} {i : Nat} (hinv : H2HInv A l i) :
    H2HInv A (if (getS l i).alive then h2hInner l i else l) (i + 1) := by
  obtain ⟨hlen, hbody, hmono, hJ⟩ := hinv
  by_cases hguard : (getS l i).alive = true
  · rw [if_pos hguard]
    refine ⟨by rw [h2hInner_length, hlen], ?_, ?_, ?_⟩
    · intro k
      rw [h2hInner_body, hbody]
    · intro k hk
      exact hmono k (h2hInner_mono hk)
    · intro x hx halive0 halive' hpart
      have halivelx : (getS l x).alive = true := h2hInner_mono halive'
      obtain ⟨hix, y, hy, hyx, hal0y, halively, hhd, hln, hiy⟩ :=
        hJ x hx halive0 halivelx hpart
      -- heads and lengths transfer between A and l
      have hheadt : ∀ k, (getS l k).head = (getS A k).head := by
        intro k; exact body_eq_head_eq (hbody k)
      have hlent : ∀ k, (getS l k).body.length = (getS A k).body.length := by
        intro k; rw [hbody k]
      have hxi : x ≠ i := by
        intro hxi
        subst hxi
        have hkill : (getS (h2hInner l x) x).health = 0 := by
          apply h2hInner_kills_self (alive_lt hguard) (by omega)
            (by rw [hlen]; omega) halively
          · rw [hheadt, hheadt, hhd]
          · rw [hlent, hlent]; exact hln
        rw [alive_false_of_health_zero hkill] at halive'
        cases halive'
      have hyi : y ≠ i := by
        intro hyi
        subst hyi
        have hkill : (getS (h2hInner l y) x).health = 0 := by
          apply h2hInner_kills (by omega) (by rw [hlen]; omega) halivelx
          · rw [hheadt, hheadt, hhd]
          · rw [hlent, hlent]; exact hln
        rw [alive_false_of_health_zero hkill] at halive'
        cases halive'
      refine ⟨by omega, ?_⟩
      by_cases halively' : (getS (h2hInner l i) y).alive = true
      · exact ⟨y, hy, hyx, hal0y, halively', hhd, hln, by omega⟩
      · exfalso
        -- y died in this inner loop, so it shares the head of i and is
        -- not longer than i; but then x is also killed, contradiction.
        have hnot : ¬((getS l y).alive = true → (getS l y).head = (getS l i).head →
            (getS l i).body.length < (getS l y).body.length) := by
          intro hcnd
          rw [h2hInner_preserves_k hyi hcnd, halively] at halively'
          exact halively' rfl
        push_neg at hnot
        obtain ⟨_, hheady, hleny⟩ := hnot
        have hkill : (getS (h2hInner l i) x).health = 0 := by
          apply h2hInner_kills (by omega) (by rw [hlen]; omega) halivelx
          · rw [← hheady]
            rw [hheadt, hheadt, hhd]
          · have h1 : (getS l x).body.length ≤ (getS l y).body.length := by
              rw [hlent, hlent]; exact hln
            omega
        rw [alive_false_of_health_zero hkill] at halive'
        cases halive'
  · rw [if_neg hguard]
    refine ⟨hlen, hbody, hmono, ?_⟩
    intro x hx halive0 halive' hpart
    obtain ⟨hix, y, hy, hyx, hal0y, halively, hhd, hln, hiy⟩ :=
      hJ x hx halive0 halive' hpart
    have hxi : x ≠ i := by
      intro hxi; subst hxi; rw [halive'] at hguard; exact hguard rfl
    have hyi : y ≠ i := by
      intro hyi; subst hyi; rw [halively] at hguard; exact hguard rfl
    exact ⟨by omega, y, hy, hyx, hal0y, halively, hhd, hln, by omega⟩

theorem h2hOuter_inv {A : List Snake} (cnt : Nat) : ∀ {i : Nat} {l : List Snake},
    H2HInv A l i → H2HInv A (h2hOuter cnt i l) (i + cnt) := by
  induction cnt with
  | zero => intro i l h; exact h
  | succ c ih =>
    intro i l h
    rw [h2hOuter]
    have hstep := H2HInv_step h
    have hres := ih hstep
    have : i + 1 + c = i + (c + 1) := by omega
    rw [this] at hres
    exact hres

theorem alive_of_health_ne {s : Snake} (h : s.health ≠ 0) : s.alive = true := by
  simp [Snake.alive]
  omega

/-- Completeness of head-to-head resolution: a living snake that shares
its head coordinate with another living snake of at least its own
length ends the resolution phase with health 0. -/
theorem h2h_complete {A : List Snake} {x y : Nat}
    (hx : x < A.length) (hy : y < A.length) (hyx : y ≠ x)
    (hax : (getS A x).alive = true) (hay : (getS A y).alive = true)
    (hhd : (getS A y).head = (getS A x).head)
    (hln : (getS A x).body.length ≤ (getS A y).body.length) :
    (getS (h2hPhase A) x).health = 0 := by
  have hinv := h2hOuter_inv (A := A) (A.length - 1) (H2HInv_init A)
  by_contra h0
  have halive' : (getS (h2hPhase A) x).alive = true := alive_of_health_ne h0
  obtain ⟨_, _, _, hJ⟩ := hinv
  obtain ⟨hix, y', hy', hy'x, _, _, _, _, hiy'⟩ :=
    hJ x hx hax halive' ⟨y, hy, hyx, hay, hhd, hln⟩
  omega

/-! ### Grid and phase decomposition lemmas -/

theorem cell_setT_ne {g : Grid} {p q : Vec2D} (h : q ≠ p) (t : CellT) :
    (g.setT p t).cell q = g.cell q := by
  simp [Grid.setT, Grid.cell, h]

theorem cell_setT_hazard (g : Grid) (p q : Vec2D) (t : CellT) :
    ((g.setT p t).cell q).hazard = (g.cell q).hazard := by
  unfold Grid.setT Grid.cell
  dsimp only
  split <;> rfl

theorem cell_setT_t_cases (g : Grid) (p q : Vec2D) (t : CellT) :
    ((g.setT p t).cell q).t = (g.cell q).t ∨ ((g.setT p t).cell q).t = t := by
  unfold Grid.setT Grid.cell
  dsimp only
  split
  · right; rfl
  · left; rfl

theorem setT_dims (g : Grid) (p : Vec2D) (t : CellT) :
    (g.setT p t).width = g.width ∧ (g.setT p t).height = g.height := ⟨rfl, rfl⟩

theorem popOne_default : popOne default = default := by
  simp [popOne, Snake.alive, default]

theorem cleanOne_default : cleanOne default = default := by
  simp [cleanOne, Snake.alive, default]

theorem getS_map {f : Snake → Snake} (hf : f default = default)
    (l : List Snake) (i : Nat) : getS (l.map f) i = f (getS l i) := by
  unfold getS
  induction l generalizing i with
  | nil => cases i <;> simp [hf]
  | cons a t ih =>
    cases i with
    | zero => rfl
    | succ j => exact ih j

theorem popTails_snd (g : Grid) (l : List Snake) :
    (popTails g l).2 = l.map popOne := by
  induction l generalizing g with
  | nil => rfl
  | cons s t ih =>
    unfold popTails popOne
    dsimp only
    split
    · rename_i hs
      rw [ih]
      simp [hs]
      intro a _
      rfl
    · rename_i hs
      rw [ih]
      simp [hs]
      intro a _
      rfl

theorem popTails_cell_preserve {q : Vec2D} : ∀ {g : Grid} {l : List Snake},
    (∀ s ∈ l, s.alive = true → q ≠ s.body.headD default) →
    ((popTails g l).1).cell q = g.cell q := by
  intro g l
  induction l generalizing g with
  | nil => intro _; rfl
  | cons s t ih =>
    intro h
    unfold popTails
    dsimp only
    split
    · rename_i hs
      rw [ih (fun s2 hs2 ha => h s2 (List.mem_cons_of_mem _ hs2) ha)]
      split
      · exact cell_setT_ne (h s (List.mem_cons_self _ _) hs) _
      · rfl
    · exact ih (fun s2 hs2 ha => h s2 (List.mem_cons_of_mem _ hs2) ha)

theorem popTails_hazard (q : Vec2D) : ∀ {g : Grid} {l : List Snake},
    (((popTails g l).1).cell q).hazard = (g.cell q).hazard := by
  intro g l
  induction l generalizing g with
  | nil => rfl
  | cons s t ih =>
    unfold popTails
    dsimp only
    split
    · rw [ih]
      split
      · rw [cell_setT_hazard]
      · rfl
    · exact ih

theorem popTails_t_cases (q : Vec2D) : ∀ {g : Grid} {l : List Snake},
    (((popTails g l).1).cell q).t = (g.cell q).t ∨
      (((popTails g l).1).cell q).t = CellT.Free := by
  intro g l
  induction l generalizing g with
  | nil => left; rfl
  | cons s t ih =>
    unfold popTails
    dsimp only
    split
    · split
      · rcases ih with h | h <;> rw [h]
        · exact cell_setT_t_cases _ _ _ _
        · right; rfl
      · exact ih
    · exact ih

theorem popTails_dims : ∀ {g : Grid} {l : List Snake},
    ((popTails g l).1).width = g.width ∧ ((popTails g l).1).height = g.height := by
  intro g l
  induction l generalizing g with
  | nil => exact ⟨rfl, rfl⟩
  | cons s t ih =>
    unfold popTails
    dsimp only
    split
    · split
      · exact ih
      · exact ih
    · exact ih

theorem moveHeads_length (g : Grid) (hd : Nat) (moves : List Direction) :
    ∀ (k : Nat) (l : List Snake), (moveHeads g hd moves k l).length = l.length := by
  intro k l
  induction l generalizing k with
  | nil => rfl
  | cons s t ih => simp [moveHeads, ih]

theorem moveHeads_getS (g : Grid) (hd : Nat) (moves : List Direction) :
    ∀ {k i : Nat} {l : List Snake}, i < l.length →
      getS (moveHeads g hd moves k l) i =
        moveOne g hd (moves.getD (k + i) Direction.Up) (getS l i) := by
  intro k i l
  induction l generalizing k i with
  | nil => intro h; simp at h
  | cons s t ih =>
    intro h
    cases i with
    | zero => rfl
    | succ j =>
      have hres := ih (k := k + 1) (i := j) (by simpa using h)
      show getS (moveHeads g hd moves (k + 1) t) j =
        moveOne g hd (moves.getD (k + (j + 1)) Direction.Up) (getS t j)
      rw [show k + (j + 1) = k + 1 + j by omega]
      exact hres

theorem cleanup_snd (g : Grid) (l : List Snake) :
    (cleanup g l).2 = l.map cleanOne := by
  induction l generalizing g with
  | nil => rfl
  | cons s t ih =>
    unfold cleanup cleanOne
    dsimp only
    split
    · rename_i hs
      rw [ih]
      simp [hs]
      intro a _
      rfl
    · rename_i hs
      rw [ih]
      simp [hs]
      intro a _
      rfl

theorem cleanOne_alive {s : Snake} (h : s.alive = true) : cleanOne s = s := by
  simp [cleanOne, h]

theorem cleanOne_health (s : Snake) : (cleanOne s).health = s.health := by
  unfold cleanOne
  split <;> rfl

/-! ### Planner fallback: soundness and bounded depth -/

theorem freeCnt_le_four (l : List Direction) : freeCnt l ≤ 4 := by
  unfold freeCnt
  have h1 : (if Direction.Up ∉ l then 1 else 0) ≤ 1 := by split <;> omega
  have h2 : (if Direction.Right ∉ l then 1 else 0) ≤ 1 := by split <;> omega
  have h3 : (if Direction.Down ∉ l then 1 else 0) ≤ 1 := by split <;> omega
  have h4 : (if Direction.Left ∉ l then 1 else 0) ≤ 1 := by split <;> omega
  omega

theorem freeCnt_push_le (l : List Direction) (c : Direction) :
    freeCnt (l ++ [c]) ≤ freeCnt l := by
  have h1 := freeTerm_le l c Direction.Up
  have h2 := freeTerm_le l c Direction.Right
  have h3 := freeTerm_le l c Direction.Down
  have h4 := freeTerm_le l c Direction.Left
  unfold freeCnt
  omega

theorem notsList_pushNot (d : Direction) (nots : Option (List Direction)) :
    notsList (pushNot d nots) = notsList nots ++ [d] := by
  cases nots <;> rfl

/-- Soundness of the fallback loop: any direction returned by
`random`/`move_check` is either not dangerous, or is the exhaustion
fallback value (the first unfiltered legal move, defaulting to Up). -/
theorem planner_sound (n : Nat) : ∀ (g : Game) (pick : List Direction → Nat),
    (∀ nots, 2 * freeCnt (notsList nots) < n →
      dangerous g (srandom g nots pick) = false ∨
        srandom g nots pick = (g.valid_moves 0).headD Direction.Up) ∧
    (∀ m nots, 2 * freeCnt (notsList (pushNot m nots)) + 1 < n →
      dangerous g (smove_check g m nots pick) = false ∨
        smove_check g m nots pick = (g.valid_moves 0).headD Direction.Up) := by
  induction n using Nat.strong_induction_on with
  | _ n ih =>
    intro g pick
    have p1 : ∀ nots, 2 * freeCnt (notsList nots) < n →
        dangerous g (srandom g nots pick) = false ∨
          srandom g nots pick = (g.valid_moves 0).headD Direction.Up := by
      intro nots hn
      rw [srandom]
      split
      · right; rfl
      · rename_i hne
        set moves := (g.valid_moves 0).filter (fun m => decide (m ∉ notsList nots)) with hmoves
        set c := moves.get ⟨pick moves % moves.length, Nat.mod_lt _ (List.length_pos.mpr hne)⟩
          with hc
        have hcmem : c ∈ moves := List.get_mem _ _ _
        have hcnot : c ∉ notsList nots := by
          have := List.of_mem_filter hcmem
          simpa using this
        have hlt : freeCnt (notsList (pushNot c nots)) < freeCnt (notsList nots) := by
          rw [notsList_pushNot]
          exact freeCnt_push_lt hcnot
        have hm : 2 * freeCnt (notsList (pushNot c nots)) + 1 < 2 * freeCnt (notsList (pushNot c nots)) + 2 := by
          omega
        have := (ih (2 * freeCnt (notsList (pushNot c nots)) + 2) (by omega) g pick).2
        exact this c nots hm
    refine ⟨p1, ?_⟩
    intro m nots hn
    rw [smove_check]
    split
    · rename_i hdang
      apply p1
      rw [notsList_pushNot] at hn ⊢
      have := freeCnt_push_le (notsList nots) m
      omega
    · rename_i hdang
      left
      rw [Bool.not_eq_true] at hdang
      exact hdang

/-- Fuel adequacy: once the fuel exceeds the termination measure, the
fuel-indexed fallback loop returns exactly the total function's value. -/
theorem planner_fuel (fuel : Nat) : ∀ (g : Game) (pick : List Direction → Nat),
    (∀ nots, 2 * freeCnt (notsList nots) < fuel →
      srandomF g nots pick fuel = some (srandom g nots pick)) ∧
    (∀ m nots, 2 * freeCnt (notsList (pushNot m nots)) + 1 < fuel →
      smove_checkF g m nots pick fuel = some (smove_check g m nots pick)) := by
  induction fuel using Nat.strong_induction_on with
  | _ fuel ih =>
    intro g pick
    constructor
    · intro nots hn
      match fuel, hn with
      | f + 1, hn =>
        rw [srandom, srandomF]
        split
        · rfl
        · rename_i hne
          set moves := (g.valid_moves 0).filter (fun m => decide (m ∉ notsList nots)) with hmoves
          set c := moves.get ⟨pick moves % moves.length, Nat.mod_lt _ (List.length_pos.mpr hne)⟩
            with hc
          have hcmem : c ∈ moves := List.get_mem _ _ _
          have hcnot : c ∉ notsList nots := by
            have := List.of_mem_filter hcmem
            simpa using this
          have hlt : freeCnt (notsList (pushNot c nots)) < freeCnt (notsList nots) := by
            rw [notsList_pushNot]
            exact freeCnt_push_lt hcnot
          exact (ih f (by omega) g pick).2 c nots (by omega)
    · intro m nots hn
      match fuel, hn with
      | f + 1, hn =>
        rw [smove_check, smove_checkF]
        split
        · have hle : freeCnt (notsList (pushNot m nots)) ≤ freeCnt (notsList nots) := by
            rw [notsList_pushNot]
            exact freeCnt_push_le _ _
          exact (ih f (by omega) g pick).1 (pushNot m nots) (by omega)
        · rfl

/-! ### Outcome counting lemmas -/

theorem outcomeAux_count : ∀ (l : List Snake) (k c s : Nat),
    (outcomeAux l k (c, s)).1 = c + (l.filter Snake.alive).length := by
  intro l
  induction l with
  | nil => intro k c s; simp [outcomeAux]
  | cons a t ih =>
    intro k c s
    by_cases ha : a.alive = true
    · simp only [outcomeAux, ha, if_true, List.filter_cons, ih]
      simp [ha]
      omega
    · rw [Bool.not_eq_true] at ha
      simp only [outcomeAux, ha, List.filter_cons]
      rw [if_neg (by simp), ih]
      simp [ha]

theorem outcomeAux_surv_dead : ∀ (l : List Snake) (k c s : Nat),
    (∀ a ∈ l, a.alive = false) → (outcomeAux l k (c, s)).2 = s := by
  intro l
  induction l with
  | nil => intro k c s _; rfl
  | cons a t ih =>
    intro k c s h
    have ha := h a (List.mem_cons_self _ _)
    simp only [outcomeAux, ha]
    rw [if_neg (by simp)]
    exact ih _ _ _ (fun b hb => h b (List.mem_cons_of_mem _ hb))

theorem getS_mem {l : List Snake} {i : Nat} (h : i < l.length) : getS l i ∈ l := by
  unfold getS
  induction l generalizing i with
  | nil => simp at h
  | cons a t ih =>
    cases i with
    | zero => exact List.mem_cons_self _ _
    | succ j => exact List.mem_cons_of_mem _ (ih (by simpa using h))

theorem mem_getS {l : List Snake} {a : Snake} (h : a ∈ l) :
    ∃ i, i < l.length ∧ getS l i = a := by
  induction l with
  | nil => cases h
  | cons b t ih =>
    rcases List.mem_cons.mp h with rfl | h2
    · exact ⟨0, by simp, rfl⟩
    · obtain ⟨i, hi, hgs⟩ := ih h2
      exact ⟨i + 1, by simp; omega, hgs⟩

theorem filter_alive_eq_nil {l : List Snake}
    (h : ∀ j, j < l.length → (getS l j).alive = false) :
    l.filter Snake.alive = [] := by
  rw [List.filter_eq_nil_iff]
  intro a ha
  obtain ⟨i, hi, rfl⟩ := mem_getS ha
  simp [h i hi]

theorem outcomeAux_surv_unique : ∀ (l : List Snake) (k c s j : Nat),
    j < l.length → (getS l j).alive = true →
    (∀ j2, j2 < l.length → j2 ≠ j → (getS l j2).alive = false) →
    (outcomeAux l k (c, s)).2 = k + j := by
  intro l
  induction l with
  | nil => intro k c s j hj; simp at hj
  | cons a t ih =>
    intro k c s j hj halive huniq
    cases j with
    | zero =>
      have ha : a.alive = true := halive
      simp only [outcomeAux, ha, if_true]
      have hdead : (outcomeAux t (k + 1) (c + 1, k)).2 = k := by
        apply outcomeAux_surv_dead
        intro b hb
        obtain ⟨m, hm, rfl⟩ := mem_getS hb
        have := huniq (m + 1) (by simp; omega) (by omega)
        exact this
      rw [hdead]
      omega
    | succ m =>
      have ha : a.alive = false := huniq 0 (by simp) (by omega)
      simp only [outcomeAux, show a.alive = false from ha]
      rw [if_neg (by simp)]
      have := ih (k + 1) c s m (by simpa using hj) halive
        (fun j2 hj2 hne => huniq (j2 + 1) (by simp; omega) (by omega))
      rw [this]
      omega

theorem count_one_unique {l : List Snake}
    (h : (l.filter Snake.alive).length = 1) :
    ∃ j, j < l.length ∧ (getS l j).alive = true ∧
      ∀ j2, j2 < l.length → j2 ≠ j → (getS l j2).alive = false := by
  induction l with
  | nil => simp at h
  | cons a t ih =>
    by_cases ha : a.alive = true
    · have hrest : (t.filter Snake.alive).length = 0 := by
        rw [List.filter_cons, if_pos (by simp [ha])] at h
        simpa using h
      have hnil : t.filter Snake.alive = [] := List.length_eq_zero.mp hrest
      refine ⟨0, by simp, ha, ?_⟩
      intro j2 hj2 hne
      cases j2 with
      | zero => omega
      | succ m =>
        have hm : m < t.length := by simpa using hj2
        show (getS t m).alive = false
        by_contra hc
        rw [Bool.not_eq_false] at hc
        have : getS t m ∈ t.filter Snake.alive :=
          List.mem_filter.mpr ⟨getS_mem hm, hc⟩
        rw [hnil] at this
        cases this
    · rw [Bool.not_eq_true] at ha
      rw [List.filter_cons, if_neg (by simp [ha])] at h
      obtain ⟨j, hj, hja, hju⟩ := ih h
      refine ⟨j + 1, by simp; omega, hja, ?_⟩
      intro j2 hj2 hne
      cases j2 with
      | zero => exact ha
      | succ m => exact hju m (by simpa using hj2) (by omega)

/-! ### One-cardinal-step geometry -/

theorem within_one_step_iff (a b : Vec2D) :
    (∃ d, a.apply d = b) ↔ (b.sub a).manhattan = 1 := by
  constructor
  · rintro ⟨d, rfl⟩
    cases d <;> simp [Vec2D.apply, Vec2D.sub, Vec2D.manhattan]
  · intro h
    unfold Vec2D.manhattan Vec2D.sub at h
    dsimp only at h
    have hcases : (b.x - a.x = 0 ∧ b.y - a.y = 1) ∨ (b.x - a.x = 0 ∧ b.y - a.y = -1) ∨
        (b.x - a.x = 1 ∧ b.y - a.y = 0) ∨ (b.x - a.x = -1 ∧ b.y - a.y = 0) := by
      omega
    rcases hcases with ⟨h1, h2⟩ | ⟨h1, h2⟩ | ⟨h1, h2⟩ | ⟨h1, h2⟩
    · exact ⟨Direction.Up, by simp [Vec2D.apply]; cases b; cases a; simp_all; omega⟩
    · exact ⟨Direction.Down, by simp [Vec2D.apply]; cases b; cases a; simp_all; omega⟩
    · exact ⟨Direction.Right, by simp [Vec2D.apply]; cases b; cases a; simp_all; omega⟩
    · exact ⟨Direction.Left, by simp [Vec2D.apply]; cases b; cases a; simp_all; omega⟩

/-! ### First-minimum fold for target selection -/

theorem minFoodAux_spec (hd : Vec2D) : ∀ (rest : List Vec2D) (best : Vec2D),
    ∃ l1 l2, best :: rest = l1 ++ (minFoodAux hd best rest) :: l2 ∧
      (∀ p ∈ l1, sqDist (minFoodAux hd best rest) hd < sqDist p hd) ∧
      (∀ p ∈ l2, sqDist (minFoodAux hd best rest) hd ≤ sqDist p hd) := by
  intro rest
  induction rest with
  | nil =>
    intro best
    exact ⟨[], [], rfl, by simp, by simp⟩
  | cons q qs ih =>
    intro best
    by_cases hlt : sqDist q hd < sqDist best hd
    · obtain ⟨l1, l2, heq, hstrict, hle⟩ := ih q
      have hred : minFoodAux hd best (q :: qs) = minFoodAux hd q qs := by
        simp [minFoodAux, hlt]
      rw [hred]
      have hrq : sqDist (minFoodAux hd q qs) hd ≤ sqDist q hd := by
        have hqmem : q ∈ l1 ++ minFoodAux hd q qs :: l2 := by
          rw [← heq]; exact List.mem_cons_self _ _
        rcases List.mem_append.mp hqmem with hq | hq
        · exact le_of_lt (hstrict q hq)
        · rcases List.mem_cons.mp hq with hq2 | hq2
          · exact le_of_eq (congrArg (fun z => sqDist z hd) hq2.symm)
          · exact hle q hq2
      refine ⟨best :: l1, l2, by rw [List.cons_append, ← heq], ?_, hle⟩
      intro p hp
      rcases List.mem_cons.mp hp with hpb | hp2
      · rw [hpb]
        omega
      · exact hstrict p hp2
    · obtain ⟨l1, l2, heq, hstrict, hle⟩ := ih best
      have hred : minFoodAux hd best (q :: qs) = minFoodAux hd best qs := by
        simp [minFoodAux, hlt]
      rw [hred]
      cases l1 with
      | nil =>
        simp only [List.nil_append] at heq
        injection heq with h1 h2
        refine ⟨[], q :: l2, ?_, by simp, ?_⟩
        · simp only [List.nil_append]
          rw [← h1, ← h2]
        · intro p hp
          rcases List.mem_cons.mp hp with hpq | hp2
          · rw [hpq, ← h1]
            omega
          · exact hle p hp2
      | cons c l1' =>
        rw [List.cons_append] at heq
        injection heq with h1 h2
        refine ⟨best :: q :: l1', l2, ?_, ?_, hle⟩
        · rw [List.cons_append, List.cons_append, ← h2]
        · intro p hp
          have hrb : sqDist (minFoodAux hd best qs) hd < sqDist best hd := by
            have hmem := hstrict c (List.mem_cons_self _ _)
            rw [← h1] at hmem
            exact hmem
          rcases List.mem_cons.mp hp with hpb | hp2
          · rw [hpb]
            exact hrb
          · rcases List.mem_cons.mp hp2 with hpq | hp3
            · rw [hpq]
              omega
            · exact hstrict p (List.mem_cons_of_mem _ hp3)

/-! ### Helpers for the growth/health law -/

theorem getLastD_indep : ∀ (l : List Vec2D) (d1 d2 : Vec2D), l ≠ [] →
    l.getLastD d1 = l.getLastD d2 := by
  intro l
  induction l with
  | nil => intro d1 d2 h; exact absurd rfl h
  | cons a t ih =>
    intro d1 d2 _
    cases t with
    | nil => rfl
    | cons b t2 =>
      show (b :: t2).getLastD a = (b :: t2).getLastD a
      rfl

theorem getLastD_tail {l : List Vec2D} (h : 2 ≤ l.length) :
    l.tail.getLastD default = l.getLastD default := by
  cases l with
  | nil => simp at h
  | cons a t =>
    cases t with
    | nil => simp at h
    | cons b t2 =>
      show (b :: t2).getLastD default = (b :: t2).getLastD a
      exact getLastD_indep _ _ _ (by simp)

theorem headD_mem {l : List Vec2D} (h : l ≠ []) : l.headD default ∈ l := by
  cases l with
  | nil => exact absurd rfl h
  | cons a t => exact List.mem_cons_self _ _

theorem moveOne_food (g : Grid) (hd : Nat) (dir : Direction) (s : Snake)
    (halive : s.alive = true)
    (hhas : g.has (s.head.apply dir) = true)
    (hfood : (g.cell (s.head.apply dir)).t = CellT.Food) :
    moveOne g hd dir s =
      { body := (s.body ++ [s.head.apply dir]).headD default ::
          (s.body ++ [s.head.apply dir]),
        health := 100 } := by
  simp [moveOne, halive, hhas, hfood]

theorem moveOne_plain (g : Grid) (hd : Nat) (dir : Direction) (s : Snake)
    (halive : s.alive = true)
    (hhas : g.has (s.head.apply dir) = true)
    (howned : (g.cell (s.head.apply dir)).t ≠ CellT.Owned)
    (hfood : (g.cell (s.head.apply dir)).t ≠ CellT.Food) :
    moveOne g hd dir s =
      { body := s.body ++ [s.head.apply dir],
        health := s.health - (if (g.cell (s.head.apply dir)).hazard then hd else 1) } := by
  simp [moveOne, halive, hhas, howned, hfood]

theorem popOne_alive {s : Snake} (h : s.alive = true) :
    popOne s = { body := s.body.tail, health := s.health } := by
  simp [popOne, h]

/-! ### The claim-side legality predicate -/

/-- The legality condition in the (amended) words of the spec: the
destination is in bounds and either not Owned, or is the current tail of
some living body without being that tail's duplicate successor. -/
def specValidDir (g : Game) (s : Snake) (d : Direction) : Prop :=
  g.grid.has (s.head.apply d) = true ∧
    ((g.grid.cell (s.head.apply d)).t ≠ CellT.Owned ∨
      ∃ r ∈ g.snakes, r.alive = true ∧ s.head.apply d = r.body.getD 0 default ∧
        s.head.apply d ≠ r.body.getD 1 default)

instance (g : Game) (s : Snake) (d : Direction) : Decidable (specValidDir g s d) := by
  unfold specValidDir
  infer_instance

theorem snake_move_is_valid_iff (g : Game) (s : Snake) (d : Direction) :
    g.snake_move_is_valid s d = true ↔ specValidDir g s d := by
  unfold Game.snake_move_is_valid specValidDir
  constructor
  · intro h
    rw [Bool.and_eq_true] at h
    obtain ⟨h1, h2⟩ := h
    refine ⟨h1, ?_⟩
    rw [Bool.or_eq_true] at h2
    rcases h2 with h2 | h2
    · left
      rw [Bool.not_eq_true', decide_eq_false_iff_not] at h2
      exact h2
    · right
      rw [List.any_eq_true] at h2
      obtain ⟨r, hrmem, hcond⟩ := h2
      rw [List.mem_filter] at hrmem
      rw [Bool.and_eq_true] at hcond
      obtain ⟨hc1, hc2⟩ := hcond
      rw [decide_eq_true_iff] at hc1
      rw [Bool.not_eq_true', decide_eq_false_iff_not] at hc2
      exact ⟨r, hrmem.1, hrmem.2, hc1, hc2⟩
  · intro h
    obtain ⟨h1, h2⟩ := h
    rw [Bool.and_eq_true]
    refine ⟨h1, ?_⟩
    rw [Bool.or_eq_true]
    rcases h2 with h2 | h2
    · left
      rw [Bool.not_eq_true', decide_eq_false_iff_not]
      exact h2
    · right
      obtain ⟨r, hr, hral, hp1, hp2⟩ := h2
      rw [List.any_eq_true]
      refine ⟨r, List.mem_filter.mpr ⟨hr, hral⟩, ?_⟩
      rw [Bool.and_eq_true]
      refine ⟨decide_eq_true hp1, ?_⟩
      rw [Bool.not_eq_true', decide_eq_false_iff_not]
      exact hp2

theorem filter_congr_own {α : Type} (l : List α) (p q : α → Bool)
    (h : ∀ a ∈ l, p a = q a) : l.filter p = l.filter q := by
  induction l with
  | nil => rfl
  | cons a t ih =>
    rw [List.filter_cons, List.filter_cons, h a (List.mem_cons_self _ _),
      ih (fun b hb => h b (List.mem_cons_of_mem _ hb))]

/-! ### Concrete boards used as counterexamples and witnesses -/

/-- A 5×5 board where snake 0 (head (2,0)) can step Right onto the cell
(3,0), which is Owned by snake 1 as its about-to-vacate tail. -/
def gC1 : Game := Game.new 0 5 5
  [⟨[⟨0, 0⟩, ⟨1, 0⟩, ⟨2, 0⟩], 100⟩, ⟨[⟨3, 0⟩, ⟨3, 1⟩, ⟨3, 2⟩], 100⟩] [] []

/-- A 5×5 board with food at (2,2) and two length-3 snakes whose heads
both reach (2,2) in one step. -/
def gC2x : Game := Game.new 0 5 5
  [⟨[⟨0, 3⟩, ⟨0, 2⟩, ⟨1, 2⟩], 100⟩, ⟨[⟨4, 3⟩, ⟨4, 2⟩, ⟨3, 2⟩], 100⟩] [⟨2, 2⟩] []

/-- A 5×5 board with a single snake one step away from food at (3,0). -/
def gC2w : Game := Game.new 0 5 5
  [⟨[⟨0, 0⟩, ⟨1, 0⟩, ⟨2, 0⟩], 100⟩] [⟨3, 0⟩] []

/-- A 7×7 board with three snakes of lengths 3, 5 and 7 whose heads all
reach (2,2) in one step. -/
def gC3x : Game := Game.new 0 7 7
  [⟨[⟨0, 3⟩, ⟨0, 2⟩, ⟨1, 2⟩], 100⟩,
   ⟨[⟨6, 3⟩, ⟨6, 2⟩, ⟨5, 2⟩, ⟨4, 2⟩, ⟨3, 2⟩], 100⟩,
   ⟨[⟨0, 1⟩, ⟨0, 0⟩, ⟨1, 0⟩, ⟨2, 0⟩, ⟨3, 0⟩, ⟨3, 1⟩, ⟨2, 1⟩], 100⟩] [] []

/-- A 7×2 board with a length-3 and a length-4 snake stepping head-on
into (3,0). -/
def gC3w : Game := Game.new 0 7 2
  [⟨[⟨0, 0⟩, ⟨1, 0⟩, ⟨2, 0⟩], 100⟩,
   ⟨[⟨6, 1⟩, ⟨6, 0⟩, ⟨5, 0⟩, ⟨4, 0⟩], 100⟩] [] []

/-- A 5×5 board where snake 0 steps Right into the middle segment (3,1)
of living snake 1. -/
def gC4 : Game := Game.new 0 5 5
  [⟨[⟨0, 1⟩, ⟨1, 1⟩, ⟨2, 1⟩], 100⟩, ⟨[⟨3, 2⟩, ⟨3, 1⟩, ⟨3, 0⟩], 100⟩] [] []

/-- A wire snake of length 3 rising from `p`, with the given id. -/
def mkBS (i : Nat) (p : Vec2D) : Battlesnake :=
  ⟨i, [p, ⟨p.x, p.y + 1⟩, ⟨p.x, p.y + 2⟩], 90⟩

/-- A snapshot with the self snake plus five rivals at strictly
increasing distances (six board snakes in total). -/
def rq5 : GameRequest :=
  ⟨3, ⟨11, 11, [], [],
    [mkBS 0 ⟨0, 0⟩, mkBS 1 ⟨1, 0⟩, mkBS 2 ⟨3, 0⟩, mkBS 3 ⟨5, 0⟩,
     mkBS 4 ⟨7, 0⟩, mkBS 5 ⟨9, 0⟩]⟩,
   mkBS 0 ⟨0, 0⟩⟩

/-- A 5×5 board with two food cells at equal squared distance 9 from the
self head (0,0): (3,0) comes first in the row-major scan. -/
def gC6 : Game := Game.new 0 5 5
  [⟨[⟨0, 2⟩, ⟨0, 1⟩, ⟨0, 0⟩], 100⟩] [⟨3, 0⟩, ⟨0, 3⟩] []

/-- A 7×1 board with two equal-length snakes approaching (3,0) head-on:
the end-to-end Match scenario. -/
def gC7 : Game := Game.new 0 7 1
  [⟨[⟨0, 0⟩, ⟨1, 0⟩, ⟨2, 0⟩], 100⟩, ⟨[⟨6, 0⟩, ⟨5, 0⟩, ⟨4, 0⟩], 100⟩] [] []

/-- A 2×2 board whose single snake has just eaten (duplicated tail) and
has no legal move at all. -/
def gC8 : Game := Game.new 0 2 2
  [⟨[⟨0, 1⟩, ⟨0, 1⟩, ⟨1, 1⟩, ⟨1, 0⟩, ⟨0, 0⟩], 100⟩] [] []

/-- A 5×5 board where moving Right walks next to the head of an
equal-length rival. -/
def gC9 : Game := Game.new 0 5 5
  [⟨[⟨0, 2⟩, ⟨0, 1⟩, ⟨0, 0⟩], 100⟩, ⟨[⟨4, 0⟩, ⟨3, 0⟩, ⟨2, 0⟩], 100⟩] [] []

/-- A constant RNG oracle (always draws the first candidate). -/
def pick0 : List Direction → Nat := fun _ => 0

/-- An A* oracle that never finds a path. -/
def astar0 : Vec2D → Vec2D → Option (List Vec2D) := fun _ _ => none

/-! ### Claim C1 -/

/-- C1 (amended): for every game state and snake id, `valid_moves`
yields, in the fixed Direction order Up, Right, Down, Left, exactly
those directions whose destination cell is in-bounds and either not
tagged Owned, or Owned only by a segment that is the current tail
position of some living body (not necessarily the moving body's own)
and is not also that tail's duplicated successor; for a dead snake id
it yields the empty sequence. -/
theorem C1_valid_moves (g : Game) (i : Nat) :
    g.valid_moves i =
      if g.snake_is_alive i = true then
        Direction.all.filter (fun d => decide (specValidDir g (getS g.snakes i) d))
      else [] := by
  unfold Game.valid_moves
  by_cases h : g.snake_is_alive i = true
  · rw [if_pos h, if_pos h]
    have hall : (List.range 4).map Direction.fromNat = Direction.all := by decide
    rw [hall]
    apply filter_congr_own
    intro d _
    cases hb : g.snake_move_is_valid (getS g.snakes i) d
    · symm
      rw [decide_eq_false_iff_not]
      intro hv
      rw [(snake_move_is_valid_iff g _ d).mpr hv] at hb
      cases hb
    · symm
      rw [decide_eq_true_iff]
      exact (snake_move_is_valid_iff g _ d).mp hb
  · rw [if_neg h, if_neg h]

/-- C1 counterexample: on `gC1`, Right is yielded by `valid_moves 0`
although its destination (3,0) is tagged Owned and is not snake 0's own
tail — it is rival snake 1's tail.  The claim as stated (own tail only)
is therefore false on the code. -/
theorem C1_counterexample :
    gC1.valid_moves 0 = [Direction.Up, Direction.Right] ∧
    (gC1.grid.cell ((getS gC1.snakes 0).head.apply Direction.Right)).t = CellT.Owned ∧
    (getS gC1.snakes 0).head.apply Direction.Right ≠
      (getS gC1.snakes 0).body.getD 0 default ∧
    (getS gC1.snakes 1).alive = true ∧
    (getS gC1.snakes 0).head.apply Direction.Right =
      (getS gC1.snakes 1).body.getD 0 default := by
  refine ⟨by decide, by decide, by decide, by decide, by decide⟩

/-! ### Claim C2 -/

/-- C2 (amended): for a game state satisfying the grid/body ownership
invariant and a full moves vector, consider a living snake whose step
destination is in bounds, provided no other snake that is living after
the head-advance phase has its head on the same cell.  If the
destination cell is tagged Food, after `step` the snake's body length
grows by exactly one and its health is 100; if the destination is
neither Food nor Owned, its health strictly decreases by the hazard
damage rate on hazardous cells and by 1 otherwise (saturating at 0). -/
theorem C2_growth_health (g : Game) (hd : Nat) (moves : List Direction) (i : Nat)
    (hhd : 1 ≤ hd)
    (hi : i < g.snakes.length)
    (hmv : g.snakes.length ≤ moves.length)
    (hinv : gridInvariant g)
    (halive : (getS g.snakes i).alive = true)
    (hbound : g.grid.has ((getS g.snakes i).head.apply (moves.getD i Direction.Up)) = true)
    (hno : ∀ j, j < g.snakes.length → j ≠ i →
      (getS (g.afterMovePhase hd moves) j).alive = true →
      (getS (g.afterMovePhase hd moves) j).head ≠ (getS (g.afterMovePhase hd moves) i).head) :
    ((g.grid.cell ((getS g.snakes i).head.apply (moves.getD i Direction.Up))).t = CellT.Food →
      (getS (g.step hd moves).snakes i).body.length = (getS g.snakes i).body.length + 1 ∧
      (getS (g.step hd moves).snakes i).health = 100) ∧
    ((g.grid.cell ((getS g.snakes i).head.apply (moves.getD i Direction.Up))).t ≠ CellT.Food →
     (g.grid.cell ((getS g.snakes i).head.apply (moves.getD i Direction.Up))).t ≠ CellT.Owned →
      (getS (g.step hd moves).snakes i).health =
        (getS g.snakes i).health -
          (if (g.grid.cell ((getS g.snakes i).head.apply (moves.getD i Direction.Up))).hazard
            then hd else 1) ∧
      (getS (g.step hd moves).snakes i).health < (getS g.snakes i).health) := by
  have hs0inv := hinv (getS g.snakes i) (getS_mem hi) halive
  set s0 := getS g.snakes i with hs0def
  set dir := moves.getD i Direction.Up with hdirdef
  set dest := s0.head.apply dir with hdestdef
  set A := g.afterMovePhase hd moves with hAdef
  obtain ⟨hlen2, hcellsOwned⟩ := hs0inv
  have hsnd : (popTails g.grid g.snakes).2 = g.snakes.map popOne := popTails_snd _ _
  have hplen : (popTails g.grid g.snakes).2.length = g.snakes.length := by
    rw [hsnd, List.length_map]
  have hgetp : getS (popTails g.grid g.snakes).2 i = popOne s0 := by
    rw [hsnd, getS_map popOne_default, hs0def]
  have hpop : popOne s0 = { body := s0.body.tail, health := s0.health } := popOne_alive halive
  have hpbody : (popOne s0).body = s0.body.tail := by rw [hpop]
  have hphealth : (popOne s0).health = s0.health := by rw [hpop]
  have hpalive : (popOne s0).alive = true := by
    rw [hpop]
    exact halive
  have hph : (popOne s0).head = s0.head := by
    rw [hpop]
    show s0.body.tail.getLastD default = s0.body.getLastD default
    exact getLastD_tail hlen2
  have hdims := popTails_dims (g := g.grid) (l := g.snakes)
  have hhasp : (popTails g.grid g.snakes).1.has dest = g.grid.has dest := by
    unfold Grid.has
    rw [hdims.1, hdims.2]
  have hgetA : getS A i = moveOne (popTails g.grid g.snakes).1 hd dir (popOne s0) := by
    rw [hAdef]
    unfold Game.afterMovePhase
    rw [moveHeads_getS _ _ _ (by rw [hplen]; exact hi), hgetp, Nat.zero_add, ← hdirdef]
  have hstep : getS (g.step hd moves).snakes i =
      cleanOne (getS (h2hPhase A) i) := by
    rw [hAdef]
    show getS (cleanup (popTails g.grid g.snakes).1
      (h2hPhase (g.afterMovePhase hd moves))).2 i = _
    rw [cleanup_snd, getS_map cleanOne_default]
  have hpres : getS (h2hPhase A) i = getS A i := by
    apply h2hPhase_preserves
    intro k hk halivek hheadk
    exfalso
    have hklen : k < A.length := alive_lt halivek
    have hAlen : A.length = g.snakes.length := by
      rw [hAdef]
      unfold Game.afterMovePhase
      rw [moveHeads_length, hplen]
    exact hno k (by omega) hk halivek hheadk
  constructor
  · intro hfood
    have hcell : (popTails g.grid g.snakes).1.cell dest = g.grid.cell dest := by
      apply popTails_cell_preserve
      intro s hs hsal
      obtain ⟨hsl2, hsown⟩ := hinv s hs hsal
      have hmemt : s.body.headD default ∈ s.body := headD_mem (by
        intro hnil
        rw [hnil] at hsl2
        simp at hsl2)
      have hOwn := hsown _ hmemt
      intro heqq
      rw [← heqq, hfood] at hOwn
      exact absurd hOwn (by decide)
    have hmvf := moveOne_food (popTails g.grid g.snakes).1 hd dir (popOne s0)
      hpalive
      (by rw [hph, ← hdestdef, hhasp]; exact hbound)
      (by rw [hph, ← hdestdef, hcell]; exact hfood)
    rw [hph, ← hdestdef] at hmvf
    have hmv1 : getS A i =
        { body := ((popOne s0).body ++ [dest]).headD default :: ((popOne s0).body ++ [dest]),
          health := 100 } := by
      rw [hgetA, hmvf]
    have hal100 : (getS A i).alive = true := by
      rw [hmv1]
      rfl
    rw [hstep, hpres, cleanOne_alive hal100, hmv1]
    constructor
    · show (((popOne s0).body ++ [dest]).headD default ::
        ((popOne s0).body ++ [dest])).length = s0.body.length + 1
      rw [hpbody, List.length_cons, List.length_append, List.length_tail]
      simp only [List.length_cons, List.length_nil]
      omega
    · rfl
  · intro hnf hnown
    have hcellt : ((popTails g.grid g.snakes).1.cell dest).t ≠ CellT.Owned ∧
        ((popTails g.grid g.snakes).1.cell dest).t ≠ CellT.Food := by
      rcases popTails_t_cases dest (g := g.grid) (l := g.snakes) with h | h
      · rw [h]; exact ⟨hnown, hnf⟩
      · rw [h]; exact ⟨by decide, by decide⟩
    have hhaz : (((popTails g.grid g.snakes).1).cell dest).hazard = (g.grid.cell dest).hazard :=
      popTails_hazard dest
    have hmvp := moveOne_plain (popTails g.grid g.snakes).1 hd dir (popOne s0)
      hpalive
      (by rw [hph, ← hdestdef, hhasp]; exact hbound)
      (by rw [hph, ← hdestdef]; exact hcellt.1)
      (by rw [hph, ← hdestdef]; exact hcellt.2)
    rw [hph, ← hdestdef] at hmvp
    have hmv1 : getS A i =
        { body := (popOne s0).body ++ [dest],
          health := s0.health - (if (g.grid.cell dest).hazard then hd else 1) } := by
      rw [hgetA, hmvp, hphealth, hhaz]
    have hfin : (getS (g.step hd moves).snakes i).health =
        s0.health - (if (g.grid.cell dest).hazard then hd else 1) := by
      rw [hstep, hpres, cleanOne_health, hmv1]
    refine ⟨hfin, ?_⟩
    rw [hfin]
    have h0 : 0 < s0.health := by
      have := halive
      unfold Snake.alive at this
      simpa using this
    have hrate : 0 < (if (g.grid.cell dest).hazard then hd else 1) := by
      split <;> omega
    omega

/-- C2 counterexample: on `gC2x` both snakes are living, both step onto
the Food cell (2,2) (in bounds, not Owned), yet after `step` snake 0 has
health 0 and an empty body rather than health 100 and length 4 — the
equal-length head-to-head at the food kills it.  The claim as stated
(without a head-to-head proviso) is therefore false on the code. -/
theorem C2_counterexample :
    (getS gC2x.snakes 0).alive = true ∧
    gC2x.grid.has ((getS gC2x.snakes 0).head.apply Direction.Right) = true ∧
    (gC2x.grid.cell ((getS gC2x.snakes 0).head.apply Direction.Right)).t = CellT.Food ∧
    gridInvariant gC2x ∧
    ¬((getS (gC2x.step 14 [Direction.Right, Direction.Left]).snakes 0).body.length =
        (getS gC2x.snakes 0).body.length + 1 ∧
      (getS (gC2x.step 14 [Direction.Right, Direction.Left]).snakes 0).health = 100) := by
  refine ⟨by decide, by decide, by decide, by decide, ?_⟩
  intro h
  have := h.2
  revert this
  decide

/-- C2 witness: the amended theorem applied to the concrete board
`gC2w`, whose single snake eats the food at (3,0). -/
theorem C2_witness :
    (getS (gC2w.step 14 [Direction.Right]).snakes 0).body.length =
      (getS gC2w.snakes 0).body.length + 1 ∧
    (getS (gC2w.step 14 [Direction.Right]).snakes 0).health = 100 :=
  (C2_growth_health gC2w 14 [Direction.Right] 0
    (by decide) (by decide) (by decide) (by decide) (by decide) (by decide)
    (by decide)).1 (by decide)

/-! ### Claim C3 -/

/-- C3 (amended): for every pair of snakes both living after `step`'s
head-advance phase whose heads coincide, after head-to-head resolution
the snake with strictly fewer segments has health 0, and on equal
lengths both have health 0; the longer of the two keeps its entry
unchanged (in particular its health) provided every other living snake
whose head coincides is strictly shorter than it. -/
theorem C3_head_to_head (g : Game) (hd : Nat) (moves : List Direction) (x y : Nat)
    (hx : x < (g.afterMovePhase hd moves).length)
    (hy : y < (g.afterMovePhase hd moves).length)
    (hxy : x ≠ y)
    (hax : (getS (g.afterMovePhase hd moves) x).alive = true)
    (hay : (getS (g.afterMovePhase hd moves) y).alive = true)
    (hheads : (getS (g.afterMovePhase hd moves) x).head =
      (getS (g.afterMovePhase hd moves) y).head) :
    ((getS (g.afterMovePhase hd moves) x).body.length <
        (getS (g.afterMovePhase hd moves) y).body.length →
      (getS (g.afterH2H hd moves) x).health = 0) ∧
    ((getS (g.afterMovePhase hd moves) x).body.length =
        (getS (g.afterMovePhase hd moves) y).body.length →
      (getS (g.afterH2H hd moves) x).health = 0 ∧
      (getS (g.afterH2H hd moves) y).health = 0) ∧
    ((∀ z, z < (g.afterMovePhase hd moves).length → z ≠ y →
        (getS (g.afterMovePhase hd moves) z).alive = true →
        (getS (g.afterMovePhase hd moves) z).head =
          (getS (g.afterMovePhase hd moves) y).head →
        (getS (g.afterMovePhase hd moves) z).body.length <
          (getS (g.afterMovePhase hd moves) y).body.length) →
      getS (g.afterH2H hd moves) y = getS (g.afterMovePhase hd moves) y) := by
  refine ⟨?_, ?_, ?_⟩
  · intro hlt
    exact h2h_complete hx hy (by omega) hax hay hheads.symm (by omega)
  · intro heq
    constructor
    · exact h2h_complete hx hy (by omega) hax hay hheads.symm (by omega)
    · exact h2h_complete hy hx hxy hay hax hheads (by omega)
  · intro hcond
    apply h2hPhase_preserves
    intro k hk halivek hheadk
    have hklen : k < (g.afterMovePhase hd moves).length := alive_lt halivek
    exact hcond k hklen hk halivek hheadk

/-- C3 counterexample: on `gC3x` three heads meet at (2,2).  Snakes 0
(length 3) and 1 (length 5) are both living after the head-advance
phase with coinciding heads and snake 1 is the longer of the pair, yet
after resolution snake 1 has health 0 (killed by the length-7 snake 2)
instead of keeping its health 99.  The parenthetical of the claim as
stated is therefore false on the code. -/
theorem C3_counterexample :
    (getS (gC3x.afterMovePhase 14 [Direction.Right, Direction.Left, Direction.Up]) 0).alive
      = true ∧
    (getS (gC3x.afterMovePhase 14 [Direction.Right, Direction.Left, Direction.Up]) 1).alive
      = true ∧
    (getS (gC3x.afterMovePhase 14 [Direction.Right, Direction.Left, Direction.Up]) 0).head =
      (getS (gC3x.afterMovePhase 14 [Direction.Right, Direction.Left, Direction.Up]) 1).head ∧
    (getS (gC3x.afterMovePhase 14 [Direction.Right, Direction.Left, Direction.Up]) 0).body.length <
      (getS (gC3x.afterMovePhase 14 [Direction.Right, Direction.Left, Direction.Up]) 1).body.length ∧
    (getS (gC3x.afterMovePhase 14 [Direction.Right, Direction.Left, Direction.Up]) 1).health = 99 ∧
    (getS (gC3x.afterH2H 14 [Direction.Right, Direction.Left, Direction.Up]) 1).health = 0 := by
  refine ⟨by decide, by decide, by decide, by decide, by decide, by decide⟩

/-- C3 witness: the amended theorem applied to `gC3w`, where a length-3
and a length-4 snake collide head-on: the shorter dies and the longer
keeps its state. -/
theorem C3_witness :
    (getS (gC3w.afterH2H 14 [Direction.Right, Direction.Left]) 0).health = 0 ∧
    getS (gC3w.afterH2H 14 [Direction.Right, Direction.Left]) 1 =
      getS (gC3w.afterMovePhase 14 [Direction.Right, Direction.Left]) 1 := by
  have h := C3_head_to_head gC3w 14 [Direction.Right, Direction.Left] 0 1
    (by decide) (by decide) (by decide) (by decide) (by decide) (by decide)
  exact ⟨h.1 (by decide), h.2.2 (by decide)⟩

/-! ### Claim C4 -/

/-- C4 (code bug): `gC4` satisfies the ownership invariant and gets a
full moves vector, yet after `step` only 2 cells are Owned while the
living snake 1 has length 3: its segment (3,1) — the collision cell of
the dead snake 0 — was freed by the cleanup loop although snake 1 still
occupies it.  The spec's step-conservation property fails on the code. -/
theorem C4_conservation_bug :
    gridInvariant gC4 ∧
    ownedCount (gC4.step 14 [Direction.Right, Direction.Right]).grid = 2 ∧
    livingLenSum (gC4.step 14 [Direction.Right, Direction.Right]).snakes = 3 ∧
    (getS (gC4.step 14 [Direction.Right, Direction.Right]).snakes 1).alive = true ∧
    ((gC4.step 14 [Direction.Right, Direction.Right]).grid.cell ⟨3, 1⟩).t = CellT.Free ∧
    ⟨3, 1⟩ ∈ (getS (gC4.step 14 [Direction.Right, Direction.Right]).snakes 1).body := by
  refine ⟨by decide, by decide, by decide, by decide, by decide, by decide⟩

/-! ### Claim C5 -/

/-- C5 (code bug): the snapshot `rq5` holds five rival bodies (more than
four), but the reconstructed game holds only 3 bodies — self plus the
two nearest rivals — because the heap loop `for _ in 1..3` iterates
twice; the claim (and the spec's "up to 4 bodies") expect self plus the
three nearest, 4 in total. -/
theorem C5_from_request_bug :
    (rq5.board.snakes.filter (fun s => s.id ≠ rq5.you.id)).length = 5 ∧
    4 < rq5.board.snakes.length ∧
    (Game.from_request rq5).snakes.length = 3 := by
  refine ⟨by decide, by decide, by decide⟩

/-! ### Claim C6 -/

/-- C6: when the board has food, the planner's default target is the
food cell of minimum squared Euclidean distance from self's head, and
among equally near cells the one encountered first in the row-major
scan (everything before the target in the scan is strictly farther). -/
theorem C6_target (g : Game) (hne : foodCells g ≠ []) :
    ∃ t, selectTarget g = some t ∧ t ∈ foodCells g ∧
      (∀ p ∈ foodCells g, sqDist t (selfSnake g).head ≤ sqDist p (selfSnake g).head) ∧
      ∃ l1 l2, foodCells g = l1 ++ t :: l2 ∧
        ∀ p ∈ l1, sqDist t (selfSnake g).head < sqDist p (selfSnake g).head := by
  cases hfc : foodCells g with
  | nil => exact absurd hfc hne
  | cons p rest =>
    obtain ⟨l1, l2, heq, hstrict, hle⟩ := minFoodAux_spec (selfSnake g).head rest p
    refine ⟨minFoodAux (selfSnake g).head p rest, ?_, ?_, ?_, l1, l2, heq, ?_⟩
    · unfold selectTarget
      rw [hfc]
    · rw [heq]
      exact List.mem_append.mpr (Or.inr (List.mem_cons_self _ _))
    · intro q hq
      rw [heq] at hq
      rcases List.mem_append.mp hq with h | h
      · exact le_of_lt (hstrict q h)
      · rcases List.mem_cons.mp h with h2 | h2
        · exact le_of_eq (congrArg (fun z => sqDist z (selfSnake g).head) h2.symm)
        · exact hle q h2
    · exact hstrict

/-- C6 witness: the target-selection theorem applied to `gC6`, which has
two food cells at equal distance 9 from the head. -/
theorem C6_witness :
    foodCells gC6 ≠ [] ∧
    ∃ t, selectTarget gC6 = some t ∧ t ∈ foodCells gC6 ∧
      (∀ p ∈ foodCells gC6, sqDist t (selfSnake gC6).head ≤ sqDist p (selfSnake gC6).head) ∧
      ∃ l1 l2, foodCells gC6 = l1 ++ t :: l2 ∧
        ∀ p ∈ l1, sqDist t (selfSnake gC6).head < sqDist p (selfSnake gC6).head :=
  ⟨by decide, C6_target gC6 (by decide)⟩

/-! ### Claim C7 -/

/-- C7: `outcome` returns Match iff no body is living, Winner(id) iff
exactly one body is living and id is that body's index, and None
otherwise (at least two living); moreover in the end-to-end scenario of
two equal-length bodies stepping head-on into the same cell (`gC7`),
`outcome` after `step` reports Match.  (The index characterisation uses
the ambient bound of at most 256 bodies, under which the source's
`as u8` truncation is the identity.) -/
theorem C7_outcome (g : Game) (hn : g.snakes.length ≤ 256) :
    (g.outcome = Outcome.Match ↔ (g.snakes.filter Snake.alive).length = 0) ∧
    (∀ i, g.outcome = Outcome.Winner i ↔
      ((g.snakes.filter Snake.alive).length = 1 ∧ i < g.snakes.length ∧
        (getS g.snakes i).alive = true)) ∧
    (g.outcome = Outcome.None ↔ 2 ≤ (g.snakes.filter Snake.alive).length) ∧
    (gC7.step 14 [Direction.Right, Direction.Left]).outcome = Outcome.Match := by
  have hn1 : (outcomeAux g.snakes 0 (0, 0)).1 = (g.snakes.filter Snake.alive).length := by
    simpa using outcomeAux_count g.snakes 0 0 0
  rcases hcase : (g.snakes.filter Snake.alive).length with _ | (_ | m)
  · have hout : g.outcome = Outcome.Match := by
      unfold Game.outcome
      rw [hn1, hcase]
    refine ⟨by rw [hout]; simp, ?_, by rw [hout]; simp, by decide⟩
    intro i
    rw [hout]
    constructor
    · intro h; cases h
    · rintro ⟨h1, _, _⟩; omega
  · obtain ⟨j, hj, hja, hju⟩ := count_one_unique hcase
    have hsurv : (outcomeAux g.snakes 0 (0, 0)).2 = j := by
      have := outcomeAux_surv_unique g.snakes 0 0 0 j hj hja hju
      simpa using this
    have hjlt : j < 256 := by omega
    have hout : g.outcome = Outcome.Winner j := by
      unfold Game.outcome
      rw [hn1, hcase, hsurv, Nat.mod_eq_of_lt hjlt]
    refine ⟨?_, ?_, ?_, by decide⟩
    · rw [hout]
      constructor
      · intro h; cases h
      · intro h; omega
    · intro i
      rw [hout]
      constructor
      · intro h
        have hij : j = i := by
          have hinj := Outcome.Winner.injEq j i
          rw [hinj] at h
          exact h
        rw [← hij]
        exact ⟨rfl, hj, hja⟩
      · rintro ⟨_, hi, hia⟩
        by_cases hij : i = j
        · rw [hij]
        · have hdead := hju i hi hij
          rw [hdead] at hia
          cases hia
    · rw [hout]
      constructor
      · intro h; cases h
      · intro h; omega
  · have hout : g.outcome = Outcome.None := by
      unfold Game.outcome
      rw [hn1, hcase]
      rfl
    refine ⟨?_, ?_, ?_, by decide⟩
    · rw [hout]
      constructor
      · intro h; cases h
      · intro h; omega
    · intro i
      rw [hout]
      constructor
      · intro h; cases h
      · rintro ⟨h1, _, _⟩; omega
    · rw [hout]
      exact ⟨fun _ => by omega, fun _ => rfl⟩

/-- C7 witness: the outcome characterisation applied after the head-on
step on `gC7`, extracting the end-to-end Match scenario. -/
theorem C7_witness : (gC7.step 14 [Direction.Right, Direction.Left]).outcome = Outcome.Match :=
  (C7_outcome (gC7.step 14 [Direction.Right, Direction.Left]) (by decide)).2.2.2

/-! ### Claim C8 -/

/-- C8: the planner always returns a concrete direction (the model is a
total function into `Direction`, and its result is always one of the
four); in particular, when self's `valid_moves` sequence is empty — so
the random fallback's candidate set is exhausted at once — the returned
direction is Up.  The A* oracle stands for the missing `grid.a_star`;
its hypothesis is the spec's §4.3 contract that a returned path of
length ≥ 2 starts with a legal first step. -/
theorem C8_always_returns (g : Game) (astar : Vec2D → Vec2D → Option (List Vec2D))
    (pick : List Direction → Nat)
    (hA : ∀ t path, astar (selfSnake g).head t = some path → 2 ≤ path.length →
      Direction.ofVec ((path.getD 1 default).sub (path.getD 0 default)) ∈ g.valid_moves 0) :
    starStep g astar pick ∈ Direction.all ∧
    (g.valid_moves 0 = [] →
      starStep g astar pick = Direction.Up ∧ srandom g none pick = Direction.Up) := by
  have hrand : g.valid_moves 0 = [] → ∀ nots, srandom g nots pick = Direction.Up := by
    intro hemp nots
    rw [srandom]
    simp [hemp]
  refine ⟨mem_direction_all _, ?_⟩
  intro hemp
  refine ⟨?_, hrand hemp none⟩
  unfold starStep
  cases htar : selectTarget g with
  | none =>
    dsimp only
    exact hrand hemp none
  | some t =>
    dsimp only
    cases hpath : astar (selfSnake g).head t with
    | none =>
      dsimp only
      exact hrand hemp none
    | some path =>
      dsimp only
      by_cases hlen : 2 ≤ path.length
      · have hmem := hA t path hpath hlen
        rw [hemp] at hmem
        cases hmem
      · rw [if_neg hlen]
        exact hrand hemp none

/-- C8 witness: on the trapped board `gC8`, `valid_moves 0` is empty
and the planner (with the never-succeeding A* oracle) returns Up. -/
theorem C8_witness :
    starStep gC8 astar0 pick0 = Direction.Up ∧ srandom gC8 none pick0 = Direction.Up :=
  (C8_always_returns gC8 astar0 pick0 (by intro t path h; cases h)).2 (by decide)

/-! ### Claim C9 -/

/-- C9: the safety filter in the claim's own vocabulary.  (1) A
direction is flagged dangerous exactly when some rival body at least as
long as self has its head within one cardinal step (Manhattan distance
1) of self's head moved by it; (2) any direction the filter chain
returns is either not dangerous or is the exhaustion fallback value;
(3) a dangerous direction is blacklisted and the choice redrawn; (4)
when candidates remain, the redraw picks a legal, non-blacklisted
direction and re-checks it. -/
theorem C9_safety (g : Game) (d : Direction) (nots : Option (List Direction))
    (pick : List Direction → Nat) :
    (dangerous g d = true ↔
      ∃ s ∈ g.snakes.drop 1, (selfSnake g).body.length ≤ s.body.length ∧
        (((selfSnake g).head.apply d).sub s.head).manhattan = 1) ∧
    (dangerous g (smove_check g d nots pick) = false ∨
      smove_check g d nots pick = (g.valid_moves 0).headD Direction.Up) ∧
    (dangerous g d = true →
      smove_check g d nots pick = srandom g (pushNot d nots) pick) ∧
    (∀ nots2, (g.valid_moves 0).filter (fun m => decide (m ∉ notsList nots2)) ≠ [] →
      ∃ c ∈ (g.valid_moves 0).filter (fun m => decide (m ∉ notsList nots2)),
        c ∉ notsList nots2 ∧ srandom g nots2 pick = smove_check g c nots2 pick) := by
  refine ⟨?_, ?_, ?_, ?_⟩
  · unfold dangerous
    rw [List.any_eq_true]
    constructor
    · rintro ⟨s, hs, hcond⟩
      rw [Bool.and_eq_true, decide_eq_true_iff] at hcond
      obtain ⟨h1, h2⟩ := hcond
      rw [List.any_eq_true] at h2
      obtain ⟨d2, _, hd2⟩ := h2
      rw [decide_eq_true_iff] at hd2
      exact ⟨s, hs, h1, (within_one_step_iff _ _).mp ⟨d2, hd2⟩⟩
    · rintro ⟨s, hs, h1, h2⟩
      obtain ⟨d2, hd2⟩ := (within_one_step_iff s.head ((selfSnake g).head.apply d)).mpr h2
      refine ⟨s, hs, ?_⟩
      rw [Bool.and_eq_true]
      refine ⟨decide_eq_true h1, ?_⟩
      rw [List.any_eq_true]
      exact ⟨d2, mem_direction_all _, decide_eq_true hd2⟩
  · exact (planner_sound (2 * freeCnt (notsList (pushNot d nots)) + 2) g pick).2 d nots
      (by omega)
  · intro hdang
    rw [smove_check, if_pos hdang]
  · intro nots2 hne
    rw [srandom, dif_neg hne]
    refine ⟨_, List.get_mem _ _ _, ?_, rfl⟩
    have hmem : (((g.valid_moves 0).filter (fun m => decide (m ∉ notsList nots2))).get
        ⟨pick ((g.valid_moves 0).filter (fun m => decide (m ∉ notsList nots2))) %
          ((g.valid_moves 0).filter (fun m => decide (m ∉ notsList nots2))).length,
          Nat.mod_lt _ (List.length_pos.mpr hne)⟩) ∈
        (g.valid_moves 0).filter (fun m => decide (m ∉ notsList nots2)) :=
      List.get_mem _ _ _
    have := List.of_mem_filter hmem
    simpa using this

/-- C9 witness: on `gC9`, Right is dangerous (the equal-length rival's
head at (2,0) is one step from the destination (1,0)), so the filter
blacklists it and redraws. -/
theorem C9_witness :
    dangerous gC9 Direction.Right = true ∧
    smove_check gC9 Direction.Right none pick0 =
      srandom gC9 (pushNot Direction.Right none) pick0 ∧
    (∃ s ∈ gC9.snakes.drop 1, (selfSnake gC9).body.length ≤ s.body.length ∧
      (((selfSnake gC9).head.apply Direction.Right).sub s.head).manhattan = 1) := by
  have h := C9_safety gC9 Direction.Right none pick0
  exact ⟨by decide, h.2.2.1 (by decide), h.1.mp (by decide)⟩

/-! ### Claim C10 -/

/-- C10: the mutual `random`/`move_check` recursion terminates within an
explicit bound: the blacklist only ever receives directions not already
on it (conjunct 2), the number of unblacklisted directions is at most
four (conjunct 1), and the fuel-indexed version of the loop reaches the
total function's answer with fuel `2·freeCnt + 2` — at most 10 calls
(five alternation rounds of the two functions) from an entry with an
empty blacklist (final conjunct). -/
theorem C10_termination (g : Game) (m : Direction) (nots : Option (List Direction))
    (pick : List Direction → Nat) :
    freeCnt (notsList nots) ≤ 4 ∧
    (∀ c ∈ (g.valid_moves 0).filter (fun m2 => decide (m2 ∉ notsList nots)),
      c ∉ notsList nots) ∧
    smove_checkF g m nots pick (2 * freeCnt (notsList nots) + 2) =
      some (smove_check g m nots pick) ∧
    srandomF g nots pick (2 * freeCnt (notsList nots) + 1) =
      some (srandom g nots pick) ∧
    smove_checkF g m none pick 10 = some (smove_check g m none pick) := by
  refine ⟨freeCnt_le_four _, ?_, ?_, ?_, ?_⟩
  · intro c hc
    have := List.of_mem_filter hc
    simpa using this
  · apply (planner_fuel _ g pick).2
    have := freeCnt_push_le (notsList nots) m
    rw [notsList_pushNot]
    omega
  · apply (planner_fuel _ g pick).1
    omega
  · apply (planner_fuel _ g pick).2
    rw [notsList_pushNot]
    have h1 : freeCnt (notsList (none : Option (List Direction)) ++ [m]) <
        freeCnt (notsList (none : Option (List Direction))) :=
      freeCnt_push_lt (by simp [notsList])
    have h2 : freeCnt (notsList (none : Option (List Direction))) = 4 := by decide
    omega

/-- C10 witness: the fuel bound applied at the external entry point on
the concrete board `gC9`: ten units of fuel reach the total function's
answer. -/
theorem C10_witness :
    smove_checkF gC9 Direction.Right none pick0 10 =
      some (smove_check gC9 Direction.Right none pick0) :=
  (C10_termination gC9 Direction.Right none pick0).2.2.2.2

end Hadar
